import Mathlib

/-!
# Hajime containers: `Array<T>` and `Queue<T>` over raw byte memory

A shallow embedding of `src/hajime.hpp`.

* A heap block is a `List Nat` of bytes; a pointer into the block is a byte
  offset.  An element of type `T` is `w = sizeof(T)` consecutive bytes.
* `i32`/`u32`/`size_t` conversions are made explicit (`toI32`, `toU32`,
  `toIndex`).
* `Assert(false, ..)` raises `SIGTRAP`; a call that trips it ends there, and
  the outcome `fault` records the state at that point.
* A memory access outside the block, or pointer arithmetic below the start of
  the block, is not defined by the language: outcome `undefined`.
* `realloc` keeps the common prefix of the old block; the bytes it newly
  exposes are indeterminate and are supplied here by an arbitrary function
  `junk` of the byte offset.  Allocation is assumed to succeed.
* `pow`/`log` are taken in exact arithmetic.
-/

namespace Hajime

/-- Result of one call on a container with state `σ` returning an `α`. -/
inductive Outcome (σ α : Type) where
  | ok (st : σ) (ret : α)
  | fault (st : σ)
  | undefined
  deriving DecidableEq, Repr

/-- Conversion to `i32` (two's complement wrap). -/
def toI32 (x : Int) : Int := (x + 2147483648) % 4294967296 - 2147483648

/-- Conversion to `u32`. -/
def toU32 (x : Int) : Nat := (x % 4294967296).toNat

/-- Conversion to `Index` (`size_t`, 64 bits). -/
def toIndex (x : Int) : Nat := (x % 18446744073709551616).toNat

/-- Embedding of `Memory_Move`: the loop `for (i = 0; i < size; i++) *to++ = *from++;`
over byte offsets into one block. -/
def Memory_Move : List Nat → Nat → Nat → Nat → Option (List Nat)
  | mem, _, _, 0 => some mem
  | mem, destination, source, size + 1 =>
    if source < mem.length ∧ destination < mem.length then
      Memory_Move (mem.set destination (mem.getD source 0)) (destination + 1) (source + 1) size
    else none

/-- Embedding of `Memory_Set`: the loop `for (i = 0; i < size; i++) *result++ = (u8)value;`. -/
def Memory_Set : List Nat → Nat → Nat → Nat → Option (List Nat)
  | mem, _, _, 0 => some mem
  | mem, source, value, size + 1 =>
    if source < mem.length then
      Memory_Set (mem.set source (value % 256)) (source + 1) value size
    else none

/-- Embedding of `calloc(n, w)`: a zero-filled block of `n * w` bytes. -/
def calloc (n w : Nat) : List Nat := List.replicate (n * w) 0

/-- Embedding of `realloc(mem, bytes)`: the old contents up to the smaller of the two
lengths, then indeterminate bytes. -/
def realloc (mem : List Nat) (bytes : Nat) (junk : Nat → Nat) : List Nat :=
  (List.range bytes).map (fun k => if k < mem.length then mem.getD k 0 else junk k % 256)

/-- Byte offset of `Data + i` for elements of width `w`. -/
def elemPtr (w : Nat) (i : Int) : Option Nat :=
  if 0 ≤ i then some (i.toNat * w) else none

/-- Read the `w` bytes of one element at byte offset `p`. -/
def readT (w : Nat) (mem : List Nat) (p : Nat) : Option (List Nat) :=
  if p + w ≤ mem.length then some ((mem.drop p).take w) else none

/-- Store the bytes `v` of one element at byte offset `p`. -/
def writeT (mem : List Nat) (p : Nat) (v : List Nat) : Option (List Nat) :=
  if p + v.length ≤ mem.length then some (mem.take p ++ v ++ mem.drop (p + v.length)) else none

/-- Loop computing the largest `j` with `1.5^j ≤ s`. -/
def log15Loop (s : Nat) : Nat → Nat → Nat
  | 0, j => j
  | fuel + 1, j => if 3 ^ (j + 1) ≤ s * 2 ^ (j + 1) then log15Loop s fuel (j + 1) else j

/-- The value of `(i32)(log(s) / log(HAJIME_ARRAY_GROWTH))` for `s ≥ 1`. -/
def floorLog15 (s : Nat) : Nat := log15Loop s s 0

/-- Integer part of `pow(HAJIME_ARRAY_GROWTH, k)`. -/
def pow15 (k : Nat) : Nat := 3 ^ k / 2 ^ k

/-- Embedding of `struct Array<T>`: the block behind `Data`, and the two `i32` fields. -/
structure Array where
  Data : List Nat
  Size : Int
  Reserve : Int
  deriving DecidableEq, Repr

/-- Constructor `Array()`. -/
def Array.new (w : Nat) : Array :=
  { Reserve := 1, Size := 0, Data := calloc 1 w }

/-- The element stored in slot `i` of a block. -/
def slot (w : Nat) (mem : List Nat) (i : Nat) : List Nat := (mem.drop (i * w)).take w

/-- Live contents: the elements in slots `[0, Size)`. -/
def Array.live (w : Nat) (a : Array) : List (List Nat) :=
  (List.range a.Size.toNat).map (slot w a.Data)

/-- Method `Array::Reserve_Memory(s)`. -/
def Array.Reserve_Memory (w : Nat) (junk : Nat → Nat) (a : Array) (s : Int) :
    Outcome Array Unit :=
  if ¬ (s > a.Reserve) then .fault a
  else if s ≤ 0 then .undefined
  else
    let newSize : Nat := toU32 (pow15 (floorLog15 s.toNat + 1))
    let data := realloc a.Data (toIndex (w * newSize)) junk
    match (do Memory_Set data (← elemPtr w a.Size) 0 (toU32 (newSize - a.Size))) with
    | none => .undefined
    | some data1 => .ok { Data := data1, Size := a.Size, Reserve := toI32 newSize } ()

/-- Method `Array::Resize(s)`. -/
def Array.Resize (w : Nat) (junk : Nat → Nat) (a : Array) (s : Int) : Outcome Array Unit :=
  if ¬ (s > a.Size) then .fault a
  else if s ≤ a.Reserve then .ok { a with Size := s } ()
  else
    match a.Reserve_Memory w junk s with
    | .ok a1 _ => .ok { a1 with Size := s } ()
    | .fault a1 => .fault a1
    | .undefined => .undefined

/-- Method `Array::Remove(i)`. -/
def Array.Remove (w : Nat) (a : Array) (i : Int) : Outcome Array Unit :=
  if ¬ (i ≥ 0 ∧ i < a.Size) then .fault a
  else
    let data : Option (List Nat) :=
      if i ≠ a.Size - 1 then do
        let v ← readT w a.Data (← elemPtr w (a.Size - 1))
        writeT a.Data (← elemPtr w i) v
      else some a.Data
    match data with
    | none => .undefined
    | some d => .ok { a with Data := d, Size := a.Size - 1 } ()

/-- Method `Array::Remove_Ordered(i)`. -/
def Array.Remove_Ordered (w : Nat) (a : Array) (i : Int) : Outcome Array Unit :=
  if ¬ (i ≥ 0 ∧ i < a.Size) then .fault a
  else
    let data : Option (List Nat) :=
      if i ≠ a.Size - 1 ∨ a.Size ≠ 1 then do
        let size := toIndex ((a.Size - (i + 1)) * w)
        Memory_Move a.Data (← elemPtr w i) (← elemPtr w (i + 1)) size
      else some a.Data
    match data with
    | none => .undefined
    | some d => .ok { a with Data := d, Size := a.Size - 1 } ()

/-- Method `Array::Add()`; the returned reference is given as the slot index. -/
def Array.Add (w : Nat) (junk : Nat → Nat) (a : Array) : Outcome Array Int :=
  match a.Resize w junk (toI32 (a.Size + 1)) with
  | .ok a1 _ => .ok a1 (a1.Size - 1)
  | .fault a1 => .fault a1
  | .undefined => .undefined

/-- Method `Array::Add(T item)`. -/
def Array.AddItem (w : Nat) (junk : Nat → Nat) (a : Array) (item : List Nat) :
    Outcome Array Int :=
  match a.Add w junk with
  | .ok a1 _ =>
    match (do writeT a1.Data (← elemPtr w (a1.Size - 1)) item) with
    | none => .undefined
    | some d => .ok { a1 with Data := d } (a1.Size - 1)
  | .fault a1 => .fault a1
  | .undefined => .undefined

/-- Method `Array::Insert(i)`; the returned reference is given as the slot index. -/
def Array.Insert (w : Nat) (junk : Nat → Nat) (a : Array) (i : Int) : Outcome Array Int :=
  match a.Resize w junk (toI32 (a.Size + 1)) with
  | .ok a1 _ =>
    let size := toIndex ((a1.Size - i) * w)
    match (do Memory_Move a1.Data (← elemPtr w (i + 1)) (← elemPtr w i) size) with
    | none => .undefined
    | some d => .ok { a1 with Data := d } i
  | .fault a1 => .fault a1
  | .undefined => .undefined

/-- Method `Array::Insert(i, T item)`. -/
def Array.InsertItem (w : Nat) (junk : Nat → Nat) (a : Array) (i : Int) (item : List Nat) :
    Outcome Array Int :=
  match a.Insert w junk i with
  | .ok a1 _ =>
    match (do writeT a1.Data (← elemPtr w i) item) with
    | none => .undefined
    | some d => .ok { a1 with Data := d } i
  | .fault a1 => .fault a1
  | .undefined => .undefined

/-- Embedding of `struct Queue<T> : public Array<T>`, which adds no field. -/
abbrev Queue := Array

/-- Constructor `Queue()`. -/
def Queue.new (w : Nat) : Queue := Array.new w

/-- Method `Queue::Push(item)`. -/
def Queue.Push (w : Nat) (junk : Nat → Nat) (q : Queue) (item : List Nat) :
    Outcome Array Unit :=
  match Array.AddItem w junk q item with
  | .ok q1 _ => .ok q1 ()
  | .fault q1 => .fault q1
  | .undefined => .undefined

/-- Method `Queue::Pop()`. -/
def Queue.Pop (w : Nat) (q : Queue) : Outcome Array (List Nat) :=
  if q.Size = 0 then .fault q
  else
    match (do readT w q.Data (← elemPtr w 0)) with
    | none => .undefined
    | some result =>
      match Array.Remove_Ordered w q 0 with
      | .ok q1 _ => .ok q1 result
      | .fault q1 => .fault q1
      | .undefined => .undefined

/-- The state left by a call that returned normally. -/
def Outcome.state? {σ α : Type} : Outcome σ α → Option σ
  | .ok st _ => some st
  | .fault _ => none
  | .undefined => none

/-- Whether a call ended in an `Assert` fault. -/
def Outcome.isFault {σ α : Type} : Outcome σ α → Bool
  | .ok _ _ => false
  | .fault _ => true
  | .undefined => false

/-- The block behind `Data` really holds slots `[0, Size)` and `[0, Reserve)`, and is
small enough to be addressed by a 64-bit `Index`. -/
def Array.WF (w : Nat) (a : Array) : Prop :=
  0 ≤ a.Size ∧ a.Size * w ≤ a.Data.length ∧ a.Reserve * w ≤ a.Data.length ∧
    a.Data.length < 18446744073709551616

instance (w : Nat) (a : Array) : Decidable (Array.WF w a) := by
  unfold Array.WF; infer_instance

/-- Push the given values in order; each push comes with the bytes a `realloc`
inside it would expose. -/
def Queue.pushAll (w : Nat) : List ((Nat → Nat) × List Nat) → Queue → Outcome Array Unit
  | [], q => .ok q ()
  | p :: ps, q =>
    match Queue.Push w p.1 q p.2 with
    | .ok q1 _ => Queue.pushAll w ps q1
    | .fault q1 => .fault q1
    | .undefined => .undefined

/-- Call `Pop` `n` times, collecting the returned values in order. -/
def Queue.popN (w : Nat) : Nat → Queue → Outcome Array (List (List Nat))
  | 0, q => .ok q []
  | n + 1, q =>
    match Queue.Pop w q with
    | .ok q1 v =>
      match Queue.popN w n q1 with
      | .ok q2 vs => .ok q2 (v :: vs)
      | .fault q2 => .fault q2
      | .undefined => .undefined
    | .fault q1 => .fault q1
    | .undefined => .undefined

/-- Push all the values onto a fresh queue, then pop as many times. -/
def Queue.roundTrip (w : Nat) (ps : List ((Nat → Nat) × List Nat)) :
    Outcome Array (List (List Nat)) :=
  match Queue.pushAll w ps (Queue.new w) with
  | .ok q _ => Queue.popN w ps.length q
  | .fault q => .fault q
  | .undefined => .undefined

/-- A call on a Dynamic Array (or on the Queue over it) with its arguments; a
call that may grow the block also carries the bytes `realloc` would expose. -/
inductive Call where
  | resize (junk : Nat → Nat) (s : Int)
  | add (junk : Nat → Nat)
  | addItem (junk : Nat → Nat) (item : List Nat)
  | insert (junk : Nat → Nat) (i : Int)
  | insertItem (junk : Nat → Nat) (i : Int) (item : List Nat)
  | remove (i : Int)
  | removeOrdered (i : Int)
  | push (junk : Nat → Nat) (item : List Nat)
  | pop

/-- The state after a call that returns normally; `none` when it faults or
leaves defined behaviour. -/
def Call.run (w : Nat) (a : Array) : Call → Option Array
  | .resize junk s => (a.Resize w junk s).state?
  | .add junk => (a.Add w junk).state?
  | .addItem junk item => (a.AddItem w junk item).state?
  | .insert junk i => (a.Insert w junk i).state?
  | .insertItem junk i item => (a.InsertItem w junk i item).state?
  | .remove i => (a.Remove w i).state?
  | .removeOrdered i => (a.Remove_Ordered w i).state?
  | .push junk item => (Queue.Push w junk a item).state?
  | .pop => (Queue.Pop w a).state?

/-- Run calls in order; `none` as soon as one does not return normally. -/
def Call.runAll (w : Nat) : List Call → Array → Option Array
  | [], a => some a
  | c :: cs, a =>
    match c.run w a with
    | some a1 => Call.runAll w cs a1
    | none => none

/-- Like `Call.runAll`, but also `none` as soon as a call leaves `Size` above `cap`. -/
def Call.runAllBelow (w : Nat) (cap : Int) : List Call → Array → Option Array
  | [], a => some a
  | c :: cs, a =>
    match c.run w a with
    | some a1 => if a1.Size ≤ cap then Call.runAllBelow w cap cs a1 else none
    | none => none

/-- Live contents after `Insert(i, x)` followed by `Remove_Ordered(i)`, when both
return normally. -/
def Array.insertThenRemove (w : Nat) (junk : Nat → Nat) (a : Array) (i : Int)
    (x : List Nat) : Option (List (List Nat)) :=
  match a.InsertItem w junk i x with
  | .ok a1 _ => (a1.Remove_Ordered w i).state?.map (Array.live w)
  | .fault _ => none
  | .undefined => none

/-- The `Array<u8>` holding `10, 20, 30`, as left by three `Add` calls on a fresh array. -/
def sample3 : Array := { Data := [10, 20, 30], Size := 3, Reserve := 3 }

/-- Capacity invariant of the Dynamic Array: `0 ≤ Size ≤ Reserve` and `Reserve ≥ 1`. -/
def CapInv (a : Array) : Prop := 0 ≤ a.Size ∧ a.Size ≤ a.Reserve ∧ 1 ≤ a.Reserve

instance (a : Array) : Decidable (CapInv a) := by
  unfold CapInv; infer_instance

/-- Sequencing of two calls: the second runs on the state the first left, and a
fault or undefined behaviour of the first ends the sequence. -/
def Outcome.andThen {σ α β : Type} (o : Outcome σ α) (f : σ → Outcome σ β) : Outcome σ β :=
  match o with
  | .ok st _ => f st
  | .fault st => .fault st
  | .undefined => .undefined

/-- Embedding of `struct StaticArray<T, size>`: the block behind `Data` and the `i32`
field `DataSize`.  The capacity `size` (a `u16` template parameter) and the element
width `w = sizeof(T)` are passed to the methods that use them. -/
structure StaticArray where
  Data : List Nat
  DataSize : Int
  deriving DecidableEq, Repr

/-- Constructor `StaticArray()`: `DataSize = HAJIME_DEFAULT_ARRAY_SIZE`, which is `1`, and
a block from `calloc(size, sizeof(T))`. -/
def StaticArray.new (size w : Nat) : StaticArray :=
  { DataSize := 1, Data := calloc size w }

/-- Live contents of a Bounded Array: the elements in slots `[0, DataSize)`. -/
def StaticArray.live (w : Nat) (a : StaticArray) : List (List Nat) :=
  (List.range a.DataSize.toNat).map (slot w a.Data)

/-- Method `StaticArray::operator[](i)`, used to read the element. -/
def StaticArray.Index (size w : Nat) (a : StaticArray) (i : Int) :
    Outcome StaticArray (List Nat) :=
  if ¬ (i ≥ 0 ∧ i < size) then .fault a
  else
    match (do readT w a.Data (← elemPtr w i)) with
    | none => .undefined
    | some v => .ok a v

/-- Method `StaticArray::operator[](i)`, used to store `item` through the returned
reference. -/
def StaticArray.IndexSet (size w : Nat) (a : StaticArray) (i : Int) (item : List Nat) :
    Outcome StaticArray Unit :=
  if ¬ (i ≥ 0 ∧ i < size) then .fault a
  else
    match (do writeT a.Data (← elemPtr w i) item) with
    | none => .undefined
    | some d => .ok { a with Data := d } ()

/-- Method `StaticArray::Resize(s)`. -/
def StaticArray.Resize (size : Nat) (a : StaticArray) (s : Int) : Outcome StaticArray Unit :=
  if ¬ (s > a.DataSize ∧ s < size) then .fault a
  else .ok { a with DataSize := s } ()

/-- Method `StaticArray::Remove(i)`. -/
def StaticArray.Remove (w : Nat) (a : StaticArray) (i : Int) : Outcome StaticArray Unit :=
  if ¬ (i ≥ 0 ∧ i < a.DataSize) then .fault a
  else
    let data : Option (List Nat) :=
      if i ≠ a.DataSize - 1 then do
        let v ← readT w a.Data (← elemPtr w (a.DataSize - 1))
        writeT a.Data (← elemPtr w i) v
      else some a.Data
    match data with
    | none => .undefined
    | some d => .ok { a with Data := d, DataSize := a.DataSize - 1 } ()

/-- Method `StaticArray::Remove_Ordered(i)`; the byte count is
`(DataSize - (i - 1))*sizeof(T)` as written in the source. -/
def StaticArray.Remove_Ordered (w : Nat) (a : StaticArray) (i : Int) :
    Outcome StaticArray Unit :=
  if ¬ (i ≥ 0 ∧ i < a.DataSize) then .fault a
  else
    let data : Option (List Nat) :=
      if i ≠ a.DataSize - 1 then do
        let size := toIndex ((a.DataSize - (i - 1)) * w)
        Memory_Move a.Data (← elemPtr w i) (← elemPtr w (i + 1)) size
      else some a.Data
    match data with
    | none => .undefined
    | some d => .ok { a with Data := d, DataSize := a.DataSize - 1 } ()

/-- Method `StaticArray::Add()`; the returned reference is given as the slot index. -/
def StaticArray.Add (size : Nat) (a : StaticArray) : Outcome StaticArray Int :=
  match a.Resize size (toI32 (a.DataSize + 1)) with
  | .ok a1 _ => .ok a1 (a1.DataSize - 1)
  | .fault a1 => .fault a1
  | .undefined => .undefined

/-- Method `StaticArray::Add(T item)`. -/
def StaticArray.AddItem (size w : Nat) (a : StaticArray) (item : List Nat) :
    Outcome StaticArray Int :=
  match a.Add size with
  | .ok a1 _ =>
    match (do writeT a1.Data (← elemPtr w (a1.DataSize - 1)) item) with
    | none => .undefined
    | some d => .ok { a1 with Data := d } (a1.DataSize - 1)
  | .fault a1 => .fault a1
  | .undefined => .undefined

/-- Method `StaticArray::Insert(i)`; the returned reference is given as the slot index. -/
def StaticArray.Insert (size w : Nat) (a : StaticArray) (i : Int) : Outcome StaticArray Int :=
  match a.Resize size (toI32 (a.DataSize + 1)) with
  | .ok a1 _ =>
    let count := toIndex ((a1.DataSize - i) * w)
    match (do Memory_Move a1.Data (← elemPtr w (i + 1)) (← elemPtr w i) count) with
    | none => .undefined
    | some d => .ok { a1 with Data := d } i
  | .fault a1 => .fault a1
  | .undefined => .undefined

/-- Method `StaticArray::Insert(i, T item)`. -/
def StaticArray.InsertItem (size w : Nat) (a : StaticArray) (i : Int) (item : List Nat) :
    Outcome StaticArray Int :=
  match a.Insert size w i with
  | .ok a1 _ =>
    match (do writeT a1.Data (← elemPtr w i) item) with
    | none => .undefined
    | some d => .ok { a1 with Data := d } i
  | .fault a1 => .fault a1
  | .undefined => .undefined

/-- A growing or shrinking call on a Bounded Array, with its arguments. -/
inductive SCall where
  | resize (s : Int)
  | add
  | addItem (item : List Nat)
  | insert (i : Int)
  | insertItem (i : Int) (item : List Nat)
  | remove (i : Int)
  | removeOrdered (i : Int)

/-- The state after a call on a Bounded Array that returns normally. -/
def SCall.run (size w : Nat) (a : StaticArray) : SCall → Option StaticArray
  | .resize s => (a.Resize size s).state?
  | .add => (a.Add size).state?
  | .addItem item => (a.AddItem size w item).state?
  | .insert i => (a.Insert size w i).state?
  | .insertItem i item => (a.InsertItem size w i item).state?
  | .remove i => (a.Remove w i).state?
  | .removeOrdered i => (a.Remove_Ordered w i).state?

/-- Run calls on a Bounded Array in order; `none` as soon as one does not return
normally. -/
def SCall.runAll (size w : Nat) : List SCall → StaticArray → Option StaticArray
  | [], a => some a
  | c :: cs, a =>
    match c.run size w a with
    | some a1 => SCall.runAll size w cs a1
    | none => none

/-- Call `Add(item)` for each of the given values in order. -/
def StaticArray.addAll (size w : Nat) : List (List Nat) → StaticArray →
    Outcome StaticArray Unit
  | [], a => .ok a ()
  | x :: xs, a =>
    match a.AddItem size w x with
    | .ok a1 _ => StaticArray.addAll size w xs a1
    | .fault a1 => .fault a1
    | .undefined => .undefined

/-- The `StaticArray<u8, 8>` holding `10, 20, 30`: a fresh array after `a[0] = 10`,
`Add(20)`, `Add(30)`. -/
def bounded3 : StaticArray := { Data := [10, 20, 30, 0, 0, 0, 0, 0], DataSize := 3 }

/-- The `StaticArray<u8, 4>` holding `10, 20, 30`: a fresh array after `a[0] = 10`,
`Add(20)`, `Add(30)`; its `DataSize` is the largest that `Resize` allows. -/
def boundedFull : StaticArray := { Data := [10, 20, 30, 0], DataSize := 3 }

/-! ## Machine integers and memory primitives -/

theorem toI32_of_range (x : Int) (h1 : -2147483648 ≤ x) (h2 : x < 2147483648) : toI32 x = x := by
  unfold toI32; omega

theorem toU32_of_range (x : Int) (h1 : 0 ≤ x) (h2 : x < 4294967296) : toU32 x = x.toNat := by
  unfold toU32; omega

theorem toIndex_of_range (x : Int) (h1 : 0 ≤ x) (h2 : x < 18446744073709551616) :
    toIndex x = x.toNat := by
  unfold toIndex; omega

theorem getD_eq_getElem? (mem : List Nat) (s : Nat) (h : s < mem.length) :
    some (mem.getD s 0) = mem[s]? := by
  simp [List.getD, List.getElem?_eq_getElem h]

theorem Memory_Move_down (n : Nat) : ∀ (mem : List Nat) (d s : Nat), d ≤ s → s + n ≤ mem.length →
    ∃ out, Memory_Move mem d s n = some out ∧ out.length = mem.length ∧
      ∀ k, out[k]? = if d ≤ k ∧ k < d + n then mem[k - d + s]? else mem[k]? := by
  induction n with
  | zero =>
    intro mem d s _ _
    refine ⟨mem, rfl, rfl, ?_⟩
    intro k
    rw [if_neg (by omega)]
  | succ n ih =>
    intro mem d s hds hlen
    have hs : s < mem.length := by omega
    have hd : d < mem.length := by omega
    obtain ⟨out, h1, h2, h3⟩ := ih (mem.set d (mem.getD s 0)) (d + 1) (s + 1) (by omega)
      (by simp; omega)
    refine ⟨out, ?_, ?_, ?_⟩
    · rw [Memory_Move, if_pos ⟨hs, hd⟩, h1]
    · simpa using h2
    · intro k
      rw [h3 k]
      by_cases hk : d + 1 ≤ k ∧ k < d + 1 + n
      · have hk2 : d ≤ k ∧ k < d + (n + 1) := by omega
        rw [if_pos hk, if_pos hk2, List.getElem?_set]
        have : ¬ (d = k - (d + 1) + (s + 1)) := by omega
        rw [if_neg this]
        congr 1; omega
      · rw [if_neg hk, List.getElem?_set]
        by_cases hkd : d = k
        · subst hkd
          have hk2 : d ≤ d ∧ d < d + (n + 1) := by omega
          rw [if_pos rfl, if_pos hk2, if_pos hd, getD_eq_getElem? mem s hs]
          congr 1; omega
        · have hk2 : ¬ (d ≤ k ∧ k < d + (n + 1)) := by omega
          rw [if_neg hkd, if_neg hk2]

theorem Memory_Set_spec (n : Nat) : ∀ (mem : List Nat) (p v : Nat), p + n ≤ mem.length →
    ∃ out, Memory_Set mem p v n = some out ∧ out.length = mem.length ∧
      ∀ k, out[k]? = if p ≤ k ∧ k < p + n then some (v % 256) else mem[k]? := by
  induction n with
  | zero =>
    intro mem p v _
    refine ⟨mem, rfl, rfl, ?_⟩
    intro k
    rw [if_neg (by omega)]
  | succ n ih =>
    intro mem p v hlen
    have hp : p < mem.length := by omega
    obtain ⟨out, h1, h2, h3⟩ := ih (mem.set p (v % 256)) (p + 1) v (by simp; omega)
    refine ⟨out, ?_, ?_, ?_⟩
    · rw [Memory_Set, if_pos hp, h1]
    · simpa using h2
    · intro k
      rw [h3 k]
      by_cases hk : p + 1 ≤ k ∧ k < p + 1 + n
      · have hk2 : p ≤ k ∧ k < p + (n + 1) := by omega
        rw [if_pos hk, if_pos hk2]
      · rw [if_neg hk, List.getElem?_set]
        by_cases hkd : p = k
        · subst hkd
          have hk2 : p ≤ p ∧ p < p + (n + 1) := by omega
          rw [if_pos rfl, if_pos hk2, if_pos hp]
        · have hk2 : ¬ (p ≤ k ∧ k < p + (n + 1)) := by omega
          rw [if_neg hkd, if_neg hk2]

theorem realloc_length (mem : List Nat) (b : Nat) (junk : Nat → Nat) :
    (realloc mem b junk).length = b := by
  simp [realloc]

theorem realloc_getElem? (mem : List Nat) (b : Nat) (junk : Nat → Nat) (k : Nat)
    (h1 : k < b) (h2 : k < mem.length) : (realloc mem b junk)[k]? = mem[k]? := by
  simp [realloc, List.getElem?_map, List.getElem?_range h1, h2, List.getD,
    List.getElem?_eq_getElem h2]

theorem writeT_spec (mem : List Nat) (p : Nat) (v : List Nat) (h : p + v.length ≤ mem.length) :
    ∃ out, writeT mem p v = some out ∧ out.length = mem.length ∧
      ∀ k, out[k]? = if p ≤ k ∧ k < p + v.length then v[k - p]? else mem[k]? := by
  refine ⟨_, if_pos h, ?_, ?_⟩
  · simp; omega
  · intro k
    by_cases hk : k < p
    · have : ¬ (p ≤ k ∧ k < p + v.length) := by omega
      rw [if_neg this, List.append_assoc, List.getElem?_append_left (by simp; omega)]
      rw [List.getElem?_take_of_lt hk]
    · rw [List.append_assoc, List.getElem?_append_right (by simp; omega)]
      have hl : (List.take p mem).length = p := by simp; omega
      rw [hl]
      by_cases hk2 : k < p + v.length
      · rw [if_pos ⟨by omega, hk2⟩, List.getElem?_append_left (by omega)]
      · rw [if_neg (by omega), List.getElem?_append_right (by omega), List.getElem?_drop]
        congr 1; omega

theorem slot_getElem? (w : Nat) (mem : List Nat) (i k : Nat) :
    (slot w mem i)[k]? = if k < w then mem[i * w + k]? else none := by
  unfold slot
  by_cases hk : k < w
  · rw [if_pos hk, List.getElem?_take_of_lt hk, List.getElem?_drop]
  · rw [if_neg hk, List.getElem?_eq_none]
    simp; omega

theorem slot_congr (w : Nat) (m1 m2 : List Nat) (i j : Nat)
    (h : ∀ k, k < w → m1[i * w + k]? = m2[j * w + k]?) : slot w m1 i = slot w m2 j := by
  apply List.ext_getElem?
  intro k
  rw [slot_getElem?, slot_getElem?]
  by_cases hk : k < w
  · simp [hk, h k hk]
  · simp [hk]

/-! ## The growth computation -/

theorem mul_two_pow_lt_three_pow (m : Nat) : m * 2 ^ m < 3 ^ m := by
  induction m with
  | zero => simp
  | succ m ih =>
    rcases Nat.lt_or_ge m 2 with h | h
    · interval_cases m <;> simp
    · have h2 : 0 < 2 ^ m := (by positivity)
      rw [pow_succ, pow_succ]
      nlinarith

theorem log15Loop_spec (s : Nat) : ∀ (fuel j : Nat), 3 ^ j ≤ s * 2 ^ j → s ≤ fuel + j →
    3 ^ (log15Loop s fuel j) ≤ s * 2 ^ (log15Loop s fuel j) ∧
      s * 2 ^ (log15Loop s fuel j + 1) < 3 ^ (log15Loop s fuel j + 1) := by
  intro fuel
  induction fuel with
  | zero =>
    intro j hj hs
    refine ⟨hj, ?_⟩
    simp only [log15Loop]
    have h1 := mul_two_pow_lt_three_pow (j + 1)
    have h2 : s * 2 ^ (j + 1) ≤ (j + 1) * 2 ^ (j + 1) := Nat.mul_le_mul_right _ (by omega)
    omega
  | succ fuel ih =>
    intro j hj hs
    by_cases h : 3 ^ (j + 1) ≤ s * 2 ^ (j + 1)
    · simp only [log15Loop, if_pos h]
      exact ih (j + 1) h (by omega)
    · simp only [log15Loop, if_neg h]
      exact ⟨hj, by omega⟩

theorem floorLog15_spec (s : Nat) (hs : 1 ≤ s) :
    3 ^ floorLog15 s ≤ s * 2 ^ floorLog15 s ∧
      s * 2 ^ (floorLog15 s + 1) < 3 ^ (floorLog15 s + 1) :=
  log15Loop_spec s s 0 (by simpa using hs) (by omega)

theorem pow15_mono {k1 k2 : Nat} (h : k1 ≤ k2) : pow15 k1 ≤ pow15 k2 := by
  unfold pow15
  obtain ⟨d, rfl⟩ := Nat.exists_eq_add_of_le h
  rw [Nat.le_div_iff_mul_le (by positivity)]
  have h1 : 3 ^ k1 / 2 ^ k1 * 2 ^ k1 ≤ 3 ^ k1 := Nat.div_mul_le_self _ _
  have h2 : (2:Nat) ^ d ≤ 3 ^ d := Nat.pow_le_pow_left (by norm_num) d
  calc 3 ^ k1 / 2 ^ k1 * 2 ^ (k1 + d) = (3 ^ k1 / 2 ^ k1 * 2 ^ k1) * 2 ^ d := by rw [pow_add]; ring
    _ ≤ 3 ^ k1 * 3 ^ d := Nat.mul_le_mul h1 h2
    _ = 3 ^ (k1 + d) := by rw [pow_add]

/-- The capacity chosen by `Reserve_Memory` is at least the request. -/
theorem le_newSize (s : Nat) (hs : 1 ≤ s) : s ≤ pow15 (floorLog15 s + 1) := by
  unfold pow15
  rw [Nat.le_div_iff_mul_le (by positivity)]
  exact le_of_lt (floorLog15_spec s hs).2

/-- The capacity chosen by `Reserve_Memory` is at most one and a half times the request. -/
theorem newSize_le (s : Nat) (hs : 1 ≤ s) : 2 * pow15 (floorLog15 s + 1) ≤ 3 * s := by
  unfold pow15
  have h := (floorLog15_spec s hs).1
  have h3 : 3 ^ (floorLog15 s + 1) / 2 ^ (floorLog15 s + 1) * 2 ^ (floorLog15 s + 1)
      ≤ 3 ^ (floorLog15 s + 1) := Nat.div_mul_le_self _ _
  generalize 3 ^ (floorLog15 s + 1) / 2 ^ (floorLog15 s + 1) = X at h3 ⊢
  rw [pow_succ, pow_succ] at h3
  have h4 : 0 < 2 ^ floorLog15 s := by positivity
  have h5 : (2 * X) * 2 ^ floorLog15 s ≤ (3 * s) * 2 ^ floorLog15 s := by nlinarith
  exact Nat.le_of_mul_le_mul_right h5 h4

theorem newSize_minimal (s : Nat) (hs : 1 ≤ s) (k : Nat) (hk : s ≤ pow15 k) :
    pow15 (floorLog15 s + 1) ≤ pow15 k := by
  rcases Nat.lt_or_ge (floorLog15 s) k with h | h
  · exact pow15_mono h
  · -- k ≤ floorLog15 s: then 1.5^k = s, which forces k = 0 and s = 1
    obtain ⟨h1, h2⟩ := floorLog15_spec s hs
    have hk2 : s * 2 ^ k ≤ 3 ^ k := by
      unfold pow15 at hk
      exact (Nat.le_div_iff_mul_le (by positivity)).1 hk
    obtain ⟨d, hd⟩ := Nat.exists_eq_add_of_le h
    have h3 : 3 ^ d ≤ 2 ^ d := by
      rw [hd, pow_add, pow_add] at h1
      have : 3 ^ k * 3 ^ d ≤ 3 ^ k * 2 ^ d := by
        calc 3 ^ k * 3 ^ d ≤ s * (2 ^ k * 2 ^ d) := h1
          _ = (s * 2 ^ k) * 2 ^ d := by ring
          _ ≤ 3 ^ k * 2 ^ d := Nat.mul_le_mul_right _ hk2
      exact Nat.le_of_mul_le_mul_left this (by positivity)
    have hd0 : d = 0 := by
      by_contra hne
      have : (2:Nat) ^ d < 3 ^ d := Nat.pow_lt_pow_left (by norm_num) hne
      omega
    subst hd0
    simp only [add_zero] at hd
    rw [hd] at h1
    have heq : s * 2 ^ k = 3 ^ k := le_antisymm hk2 h1
    have hk0 : k = 0 := by
      by_contra hne
      obtain ⟨m, rfl⟩ := Nat.exists_eq_succ_of_ne_zero hne
      have hodd : (3 ^ (m + 1)) % 2 = 1 := by
        rw [Nat.pow_mod]; simp
      have heven : (s * 2 ^ (m + 1)) % 2 = 0 := by
        rw [pow_succ, ← mul_assoc]; simp
      rw [heq] at heven
      omega
    subst hk0
    simp at heq
    subst heq
    rw [hd]
    decide

/-! ## Ordered removal and Pop -/

theorem live_getElem? (w : Nat) (a : Array) (j : Nat) :
    (a.live w)[j]? = if j < a.Size.toNat then some (slot w a.Data j) else none := by
  unfold Array.live
  by_cases h : j < a.Size.toNat
  · rw [if_pos h, List.getElem?_map, List.getElem?_range h]; rfl
  · rw [if_neg h, List.getElem?_eq_none]
    simp; omega

theorem live_length (w : Nat) (a : Array) : (a.live w).length = a.Size.toNat := by
  simp [Array.live]

theorem elemPtr_natCast (w n : Nat) : elemPtr w (n : Int) = some (n * w) := by
  simp [elemPtr]

theorem toIndex_natCast (x : Nat) (h : x < 18446744073709551616) : toIndex (x : Int) = x := by
  unfold toIndex; omega

/-- What `Remove_Ordered(i)` does to the block when `0 ≤ i < Size`. -/
theorem Remove_Ordered_spec (w : Nat) (a : Array) (n m : Nat) (hwf : a.WF w)
    (hn : a.Size = n) (hm : m < n) :
    ∃ d, a.Remove_Ordered w m = .ok { a with Data := d, Size := a.Size - 1 } () ∧
      d.length = a.Data.length ∧
      ∀ k, d[k]? = if m * w ≤ k ∧ k < (n - 1) * w then a.Data[k + w]? else a.Data[k]? := by
  obtain ⟨_, h2, _, h4⟩ := hwf
  rw [hn] at h2
  have h2' : n * w ≤ a.Data.length := by exact_mod_cast h2
  have hguard : ((m : Int) ≥ 0 ∧ (m : Int) < a.Size) := by rw [hn]; omega
  have e1 : (n - 1) * w + w = n * w := by
    have : n - 1 + 1 = n := by omega
    rw [← Nat.succ_mul, Nat.succ_eq_add_one, this]
  have e2 : (m + 1) * w = m * w + w := Nat.succ_mul m w
  have e3 : m * w + (n - m - 1) * w = (n - 1) * w := by
    rw [← Nat.add_mul]; congr 1; omega
  by_cases hc : (m : Int) ≠ a.Size - 1 ∨ a.Size ≠ 1
  · have hsz : toIndex ((a.Size - ((m : Int) + 1)) * w) = (n - m - 1) * w := by
      have : (a.Size - ((m : Int) + 1)) * w = (((n - m - 1) * w : Nat) : Int) := by
        rw [hn]; push_cast
        have : ((n - m - 1 : Nat) : Int) = (n : Int) - m - 1 := by omega
        rw [this]; ring
      rw [this, toIndex_natCast]
      omega
    have hp1 : elemPtr w ((m : Int) + 1) = some ((m + 1) * w) := by
      have := elemPtr_natCast w (m + 1)
      push_cast at this; exact this
    obtain ⟨d, hd1, hd2, hd3⟩ := Memory_Move_down ((n - m - 1) * w) a.Data (m * w) ((m + 1) * w)
      (by omega) (by omega)
    refine ⟨d, ?_, hd2, ?_⟩
    · unfold Array.Remove_Ordered
      rw [if_neg (by simpa using hguard)]
      simp only [if_pos hc, hsz, elemPtr_natCast, hp1, Option.bind_eq_bind, Option.some_bind,
        Option.pure_def, bind_pure_comp, hd1]
    · intro k
      rw [hd3 k]
      by_cases hk : m * w ≤ k ∧ k < (n - 1) * w
      · rw [if_pos hk, if_pos (by omega)]
        congr 1; omega
      · rw [if_neg hk, if_neg (by omega)]
  · refine ⟨a.Data, ?_, rfl, ?_⟩
    · unfold Array.Remove_Ordered
      rw [if_neg (by simpa using hguard)]
      simp only [if_neg hc]
    · intro k
      have : n = 1 := by
        have := not_or.1 hc
        omega
      subst this
      have : m = 0 := by omega
      subst this
      rw [if_neg (by simp)]

/-- Live contents after `Remove_Ordered(i)`: element `i` erased. -/
theorem Remove_Ordered_live (w : Nat) (a : Array) (n m : Nat) (hwf : a.WF w)
    (hn : a.Size = n) (hm : m < n) :
    ∃ a1, a.Remove_Ordered w m = .ok a1 () ∧ a1.WF w ∧ a1.Size = a.Size - 1 ∧
      a1.Reserve = a.Reserve ∧ a1.Data.length = a.Data.length ∧
      a1.live w = (a.live w).eraseIdx m := by
  obtain ⟨d, hd1, hd2, hd3⟩ := Remove_Ordered_spec w a n m hwf hn hm
  refine ⟨_, hd1, ?_, rfl, rfl, hd2, ?_⟩
  · obtain ⟨h1, h2, h3, h4⟩ := hwf
    refine ⟨?_, ?_, ?_, ?_⟩
    · show 0 ≤ a.Size - 1
      omega
    · show (a.Size - 1) * (w : Int) ≤ (d.length : Int)
      rw [hd2]
      have : (a.Size - 1) * (w : Int) ≤ a.Size * w :=
        Int.mul_le_mul_of_nonneg_right (by omega) (by omega)
      omega
    · show a.Reserve * (w : Int) ≤ (d.length : Int)
      rw [hd2]; exact h3
    · show d.length < _
      rw [hd2]; exact h4
  · apply List.ext_getElem?
    intro j
    rw [List.getElem?_eraseIdx, live_getElem?, live_getElem?, live_getElem?]
    have hs1 : ({ a with Data := d, Size := a.Size - 1 } : Array).Size.toNat = n - 1 := by
      show (a.Size - 1).toNat = n - 1
      omega
    have hs2 : a.Size.toNat = n := by omega
    rw [hs1, hs2]
    show (if j < n - 1 then some (slot w d j) else none) = _
    by_cases hj : j < n - 1
    · rw [if_pos hj]
      have e1 : (j + 1) * w = j * w + w := Nat.succ_mul j w
      by_cases hjm : j < m
      · rw [if_pos hjm, if_pos (by omega)]
        congr 1
        apply slot_congr
        intro k hk
        have : (j + 1) * w ≤ m * w := Nat.mul_le_mul_right w hjm
        rw [hd3, if_neg (by omega)]
      · rw [if_neg hjm, if_pos (by omega)]
        congr 1
        apply slot_congr
        intro k hk
        have h5 : m * w ≤ j * w := Nat.mul_le_mul_right w (by omega)
        have h6 : (j + 1) * w ≤ (n - 1) * w := Nat.mul_le_mul_right w hj
        rw [hd3, if_pos (by omega)]
        congr 1; omega
    · rw [if_neg hj]
      by_cases hjm : j < m
      · omega
      · rw [if_neg hjm, if_neg (by omega)]

theorem readT_slot (w : Nat) (mem : List Nat) (i : Nat) (h : i * w + w ≤ mem.length) :
    readT w mem (i * w) = some (slot w mem i) := by
  unfold readT slot
  rw [if_pos h]

/-- One `Pop` on a queue whose live contents are `h :: t`. -/
theorem Pop_spec (w : Nat) (q : Queue) (h : List Nat) (t : List (List Nat)) (hwf : Array.WF w q)
    (hl : Array.live w q = h :: t) :
    ∃ q1, Queue.Pop w q = .ok q1 h ∧ Array.WF w q1 ∧ Array.live w q1 = t ∧
      q1.Size = q.Size - 1 ∧ q1.Reserve = q.Reserve ∧ q1.Data.length = q.Data.length := by
  have hlen := live_length w q
  rw [hl] at hlen
  simp only [List.length_cons] at hlen
  have hn : q.Size = ((t.length + 1 : Nat) : Int) := by
    have := hwf.1
    omega
  obtain ⟨q1, h1, h2, h3, h4, h5, h6⟩ := Remove_Ordered_live w q (t.length + 1) 0 hwf hn (by omega)
  have hh : slot w q.Data 0 = h := by
    have := live_getElem? w q 0
    rw [hl, if_pos (by omega)] at this
    simpa using this.symm
  have hrd : readT w q.Data (0 * w) = some h := by
    rw [readT_slot, hh]
    have := hwf.2.1
    rw [hn] at this
    have h7 : (t.length + 1) * w ≤ q.Data.length := by exact_mod_cast this
    have h8 : (t.length + 1) * w = t.length * w + w := Nat.succ_mul _ _
    omega
  refine ⟨q1, ?_, h2, ?_, h3, h4, h5⟩
  · unfold Queue.Pop
    rw [if_neg (by omega)]
    have hp : elemPtr w 0 = some (0 * w) := elemPtr_natCast w 0
    simp only [hp, Option.bind_eq_bind, Option.some_bind, hrd]
    have h1' : Array.Remove_Ordered w q 0 = .ok q1 () := h1
    rw [h1']
  · rw [h6, hl]; rfl

/-! ## Unordered removal -/

theorem slot_length (w : Nat) (mem : List Nat) (i : Nat) (h : i * w + w ≤ mem.length) :
    (slot w mem i).length = w := by
  unfold slot
  simp; omega

/-- What `Remove(i)` does to the block when `0 ≤ i < Size`. -/
theorem Remove_spec (w : Nat) (a : Array) (n m : Nat) (hwf : a.WF w)
    (hn : a.Size = n) (hm : m < n) :
    ∃ d, a.Remove w m = .ok { a with Data := d, Size := a.Size - 1 } () ∧
      d.length = a.Data.length ∧
      ∀ k, d[k]? = if m * w ≤ k ∧ k < m * w + w then a.Data[k - m * w + (n - 1) * w]?
        else a.Data[k]? := by
  obtain ⟨_, h2, _, h4⟩ := hwf
  rw [hn] at h2
  have h2' : n * w ≤ a.Data.length := by exact_mod_cast h2
  have hguard : ((m : Int) ≥ 0 ∧ (m : Int) < a.Size) := by rw [hn]; omega
  have e1 : (n - 1) * w + w = n * w := by
    have : n - 1 + 1 = n := by omega
    rw [← Nat.succ_mul, Nat.succ_eq_add_one, this]
  have e2 : (m + 1) * w = m * w + w := Nat.succ_mul m w
  have e3 : (m + 1) * w ≤ n * w := Nat.mul_le_mul_right w hm
  by_cases hc : (m : Int) ≠ a.Size - 1
  · have hp1 : elemPtr w (a.Size - 1) = some ((n - 1) * w) := by
      have := elemPtr_natCast w (n - 1)
      have h5 : ((n - 1 : Nat) : Int) = a.Size - 1 := by omega
      rw [h5] at this; exact this
    have hrd := readT_slot w a.Data (n - 1) (by omega)
    have hvl := slot_length w a.Data (n - 1) (by omega)
    obtain ⟨d, hd1, hd2, hd3⟩ := writeT_spec a.Data (m * w) (slot w a.Data (n - 1))
      (by rw [hvl]; omega)
    refine ⟨d, ?_, hd2, ?_⟩
    · unfold Array.Remove
      rw [if_neg (by simpa using hguard)]
      simp only [if_pos hc, elemPtr_natCast, hp1, Option.bind_eq_bind, Option.some_bind, hrd, hd1]
    · intro k
      rw [hd3 k, hvl]
      by_cases hk : m * w ≤ k ∧ k < m * w + w
      · rw [if_pos hk, if_pos hk, slot_getElem?, if_pos (by omega)]
        congr 1; omega
      · rw [if_neg hk, if_neg hk]
  · refine ⟨a.Data, ?_, rfl, ?_⟩
    · unfold Array.Remove
      rw [if_neg (by simpa using hguard)]
      simp only [if_neg hc]
    · intro k
      have : m = n - 1 := by
        have := not_not.1 hc
        omega
      subst this
      by_cases hk : (n - 1) * w ≤ k ∧ k < (n - 1) * w + w
      · rw [if_pos hk]
        congr 1; omega
      · rw [if_neg hk]

/-- Live contents after `Remove(i)`: slot `i` takes the old last element, the
last slot is dropped. -/
theorem Remove_live (w : Nat) (a : Array) (n m : Nat) (hwf : a.WF w)
    (hn : a.Size = n) (hm : m < n) :
    ∃ a1, a.Remove w m = .ok a1 () ∧ a1.WF w ∧ a1.Size = a.Size - 1 ∧
      a1.Reserve = a.Reserve ∧
      a1.live w = ((a.live w).set m ((a.live w).getLastD [])).dropLast := by
  obtain ⟨d, hd1, hd2, hd3⟩ := Remove_spec w a n m hwf hn hm
  have h2' : n * w ≤ a.Data.length := by
    have := hwf.2.1
    rw [hn] at this
    exact_mod_cast this
  refine ⟨_, hd1, ?_, rfl, rfl, ?_⟩
  · obtain ⟨h1, h2, h3, h4⟩ := hwf
    refine ⟨?_, ?_, ?_, ?_⟩
    · show 0 ≤ a.Size - 1
      omega
    · show (a.Size - 1) * (w : Int) ≤ (d.length : Int)
      rw [hd2]
      have : (a.Size - 1) * (w : Int) ≤ a.Size * w :=
        Int.mul_le_mul_of_nonneg_right (by omega) (by omega)
      omega
    · show a.Reserve * (w : Int) ≤ (d.length : Int)
      rw [hd2]; exact h3
    · show d.length < _
      rw [hd2]; exact h4
  · have hs2 : a.Size.toNat = n := by omega
    have hlast : (a.live w).getLastD [] = slot w a.Data (n - 1) := by
      rw [List.getLastD_eq_getLast?, List.getLast?_eq_getElem?, live_getElem?, live_length,
        hs2, if_pos (by omega)]
      rfl
    apply List.ext_getElem?
    intro j
    rw [List.getElem?_dropLast, List.length_set, live_length, List.getElem?_set, live_length,
      live_getElem?, live_getElem?, hlast]
    have hs1 : ({ a with Data := d, Size := a.Size - 1 } : Array).Size.toNat = n - 1 := by
      show (a.Size - 1).toNat = n - 1
      omega
    rw [hs1, hs2]
    show (if j < n - 1 then some (slot w d j) else none) = _
    by_cases hj : j < n - 1
    · rw [if_pos hj, if_pos hj]
      have e1 : (j + 1) * w = j * w + w := Nat.succ_mul j w
      have e2 : (m + 1) * w = m * w + w := Nat.succ_mul m w
      by_cases hjm : m = j
      · subst hjm
        rw [if_pos rfl, if_pos hm]
        congr 1
        apply slot_congr
        intro k hk
        rw [hd3, if_pos (by omega)]
        congr 1; omega
      · rw [if_neg hjm, if_pos (by omega)]
        congr 1
        apply slot_congr
        intro k hk
        rw [hd3, if_neg]
        rcases Nat.lt_or_ge j m with h | h
        · have : (j + 1) * w ≤ m * w := Nat.mul_le_mul_right w h
          omega
        · have : (m + 1) * w ≤ j * w := Nat.mul_le_mul_right w (by omega)
          omega
    · rw [if_neg hj, if_neg hj]

/-! ## Growth and resizing -/

theorem toU32_natCast (x : Nat) (h : x < 4294967296) : toU32 (x : Int) = x := by
  unfold toU32; omega

/-- What `Reserve_Memory(s)` does when `Reserve < s`, for a request and a
width that fit their machine types. -/
theorem Reserve_Memory_spec (w : Nat) (junk : Nat → Nat) (a : Array) (n s : Nat)
    (hw1 : 1 ≤ w) (hw2 : w < 4294967296) (hn : a.Size = n) (hns : n ≤ s)
    (hlen : n * w ≤ a.Data.length)
    (hs1 : 1 ≤ s) (hs2 : s < 2147483648) (hr : a.Reserve < s) :
    ∃ d, a.Reserve_Memory w junk s =
        .ok { Data := d, Size := a.Size, Reserve := toI32 (pow15 (floorLog15 s + 1)) } () ∧
      d.length = w * pow15 (floorLog15 s + 1) ∧
      (∀ k, k < n * w → d[k]? = a.Data[k]?) ∧
      (∀ k, n * w ≤ k → k < n * w + (pow15 (floorLog15 s + 1) - n) → d[k]? = some 0) := by
  have hg1 := le_newSize s hs1
  have hg2 := newSize_le s hs1
  generalize hG : pow15 (floorLog15 s + 1) = G at hg1 hg2 ⊢
  have hG32 : G < 4294967296 := by omega
  have hprod : w * G < 18446744073709551616 := by
    have : w * G ≤ 4294967295 * 4294967295 := Nat.mul_le_mul (by omega) (by omega)
    omega
  have hfit : n * w + (G - n) ≤ w * G := by
    have h1 : G - n ≤ (G - n) * w := Nat.le_mul_of_pos_right _ hw1
    have h2 : n * w + (G - n) * w = w * G := by
      rw [← Nat.add_mul, Nat.mul_comm]; congr 1; omega
    omega
  have hnG : n * w ≤ w * G := by omega
  obtain ⟨d, hd1, hd2, hd3⟩ := Memory_Set_spec (G - n) (realloc a.Data (w * G) junk) (n * w) 0
    (by rw [realloc_length]; exact hfit)
  have hcnt : toU32 ((G : Int) - a.Size) = G - n := by
    have : (G : Int) - a.Size = ((G - n : Nat) : Int) := by rw [hn]; omega
    rw [this, toU32_natCast]; omega
  refine ⟨d, ?_, ?_, ?_, ?_⟩
  · unfold Array.Reserve_Memory
    rw [if_neg (by simpa using hr), if_neg (by omega)]
    have e1 : (s : Int).toNat = s := by omega
    have e2 : elemPtr w a.Size = some (n * w) := by rw [hn]; exact elemPtr_natCast w n
    have e3 : toIndex ((w : Int) * (G : Nat)) = w * G := by
      have := toIndex_natCast (w * G) hprod
      push_cast at this; exact this
    simp only [e1, hG, toU32_natCast G hG32, e2, e3, hcnt, Option.bind_eq_bind,
      Option.some_bind, hd1]
  · rw [hd2, realloc_length]
  · intro k hk
    rw [hd3, if_neg (by omega), realloc_getElem? _ _ _ _ (by omega) (by omega)]
  · intro k hk1 hk2
    rw [hd3, if_pos ⟨hk1, hk2⟩]

/-- What `Resize(s)` does for `Size < s`: the fields it sets and the bytes it keeps. -/
theorem Resize_spec (w : Nat) (junk : Nat → Nat) (a : Array) (n s : Nat)
    (hw1 : 1 ≤ w) (hw2 : w < 4294967296) (hwf : a.WF w) (hn : a.Size = n) (hns : n < s)
    (hs2 : s < 2147483648) :
    ∃ a1, a.Resize w junk s = .ok a1 () ∧ a1.WF w ∧ a1.Size = s ∧
      (∀ k, k < n * w → a1.Data[k]? = a.Data[k]?) ∧
      a1.Reserve = (if (s : Int) ≤ a.Reserve then a.Reserve
        else toI32 (pow15 (floorLog15 s + 1))) := by
  obtain ⟨h1, h2, h3, h4⟩ := hwf
  have hlen : n * w ≤ a.Data.length := by rw [hn] at h2; exact_mod_cast h2
  by_cases hc : (s : Int) ≤ a.Reserve
  · refine ⟨{ a with Size := s }, ?_, ⟨?_, ?_, h3, h4⟩, rfl, fun _ _ => rfl, ?_⟩
    · unfold Array.Resize
      rw [if_neg (by rw [hn]; simpa using hns), if_pos hc]
    · show (0 : Int) ≤ s
      omega
    · show (s : Int) * w ≤ a.Data.length
      have : (s : Int) * w ≤ a.Reserve * w := Int.mul_le_mul_of_nonneg_right hc (by omega)
      omega
    · rw [if_pos hc]
  · obtain ⟨d, hd1, hd2, hd3, _⟩ := Reserve_Memory_spec w junk a n s hw1 hw2 hn (by omega) hlen
      (by omega) hs2 (by omega)
    have hg1 := le_newSize s (by omega)
    have hg2 := newSize_le s (by omega)
    refine ⟨{ Data := d, Size := s, Reserve := toI32 (pow15 (floorLog15 s + 1)) }, ?_,
      ⟨?_, ?_, ?_, ?_⟩, rfl, hd3, ?_⟩
    · unfold Array.Resize
      rw [if_neg (by rw [hn]; simpa using hns), if_neg hc, hd1]
    · show (0 : Int) ≤ s
      omega
    · show (s : Int) * w ≤ d.length
      rw [hd2]
      have : s * w ≤ pow15 (floorLog15 s + 1) * w := Nat.mul_le_mul_right w hg1
      rw [Nat.mul_comm w]
      exact_mod_cast this
    · show toI32 (pow15 (floorLog15 s + 1)) * (w : Int) ≤ d.length
      rw [hd2]
      have h5 : toI32 (pow15 (floorLog15 s + 1)) ≤ (pow15 (floorLog15 s + 1) : Int) := by
        unfold toI32; omega
      have := Int.mul_le_mul_of_nonneg_right h5 (show (0 : Int) ≤ w by omega)
      rw [Nat.mul_comm w]
      push_cast
      exact this
    · show d.length < _
      rw [hd2]
      have : w * pow15 (floorLog15 s + 1) ≤ 4294967295 * 4294967295 :=
        Nat.mul_le_mul (by omega) (by omega)
      omega
    · show toI32 _ = _
      rw [if_neg hc]

/-! ## Appending, Push and the queue round trip -/

/-- The call `Add(item)` appends `item` to the live contents. -/
theorem AddItem_spec (w : Nat) (junk : Nat → Nat) (a : Array) (n : Nat) (item : List Nat)
    (hw1 : 1 ≤ w) (hw2 : w < 4294967296) (hwf : a.WF w) (hn : a.Size = n)
    (hn2 : n + 1 < 2147483648) (hitem : item.length = w) :
    ∃ a1, a.AddItem w junk item = .ok a1 (n : Int) ∧ a1.WF w ∧ a1.Size = (n : Int) + 1 ∧
      a1.live w = a.live w ++ [item] ∧
      a1.Reserve = (if (n : Int) + 1 ≤ a.Reserve then a.Reserve
        else toI32 (pow15 (floorLog15 (n + 1) + 1))) := by
  obtain ⟨a1, h1, h2, h3, h4, h5⟩ := Resize_spec w junk a n (n + 1) hw1 hw2 hwf hn (by omega)
    hn2
  have hs : toI32 (a.Size + 1) = ((n + 1 : Nat) : Int) := by
    rw [hn, toI32_of_range] <;> push_cast <;> omega
  have hlen1 : (n + 1) * w ≤ a1.Data.length := by
    have := h2.2.1
    rw [h3] at this
    exact_mod_cast this
  have e1 : (n + 1) * w = n * w + w := Nat.succ_mul n w
  obtain ⟨d, hd1, hd2, hd3⟩ := writeT_spec a1.Data (n * w) item (by omega)
  have hp : elemPtr w (a1.Size - 1) = some (n * w) := by
    have : a1.Size - 1 = (n : Int) := by rw [h3]; push_cast; omega
    rw [this]; exact elemPtr_natCast w n
  refine ⟨{ a1 with Data := d }, ?_, ?_, ?_, ?_, ?_⟩
  · unfold Array.AddItem Array.Add
    rw [hs, h1]
    simp only [hp, Option.bind_eq_bind, Option.some_bind, hd1]
    congr 1
    rw [h3]; push_cast; omega
  · obtain ⟨g1, g2, g3, g4⟩ := h2
    exact ⟨g1, by show a1.Size * (w : Int) ≤ (d.length : Int); rw [hd2]; exact g2,
      by show a1.Reserve * (w : Int) ≤ (d.length : Int); rw [hd2]; exact g3,
      by show d.length < _; rw [hd2]; exact g4⟩
  · show a1.Size = _
    rw [h3]; push_cast; rfl
  · apply List.ext_getElem?
    intro j
    rw [List.getElem?_append, live_length, live_getElem?, live_getElem?]
    have hs1 : ({ a1 with Data := d } : Array).Size.toNat = n + 1 := by
      show a1.Size.toNat = n + 1
      omega
    have hs2 : a.Size.toNat = n := by omega
    rw [hs1, hs2]
    show (if j < n + 1 then some (slot w d j) else none) = _
    by_cases hj : j < n
    · rw [if_pos (by omega), if_pos hj, if_pos hj]
      congr 1
      apply slot_congr
      intro k hk
      have e2 : (j + 1) * w = j * w + w := Nat.succ_mul j w
      have e3 : (j + 1) * w ≤ n * w := Nat.mul_le_mul_right w hj
      rw [hd3, if_neg (by omega), h4 _ (by omega)]
    · rw [if_neg hj]
      by_cases hj2 : j = n
      · subst hj2
        rw [if_pos (by omega), Nat.sub_self]
        simp only [List.getElem?_cons_zero]
        congr 1
        apply List.ext_getElem?
        intro k
        rw [slot_getElem?]
        by_cases hk : k < w
        · rw [if_pos hk, hd3, if_pos (by omega)]
          congr 1; omega
        · rw [if_neg hk, eq_comm, List.getElem?_eq_none]
          omega
      · rw [if_neg (by omega), eq_comm, List.getElem?_eq_none]
        simp; omega
  · show a1.Reserve = _
    rw [h5]; push_cast; rfl

theorem Push_spec (w : Nat) (junk : Nat → Nat) (q : Queue) (n : Nat) (item : List Nat)
    (hw1 : 1 ≤ w) (hw2 : w < 4294967296) (hwf : Array.WF w q) (hn : q.Size = n)
    (hn2 : n + 1 < 2147483648) (hitem : item.length = w) :
    ∃ q1, Queue.Push w junk q item = .ok q1 () ∧ Array.WF w q1 ∧ q1.Size = (n : Int) + 1 ∧
      Array.live w q1 = Array.live w q ++ [item] := by
  obtain ⟨q1, h1, h2, h3, h4, _⟩ := AddItem_spec w junk q n item hw1 hw2 hwf hn hn2 hitem
  refine ⟨q1, ?_, h2, h3, h4⟩
  unfold Queue.Push
  rw [h1]

/-- At `Size = INT32_MAX` the sum `Size + 1` wraps and `Resize` rejects it. -/
theorem Push_at_max (w : Nat) (junk : Nat → Nat) (q : Queue) (item : List Nat)
    (hn : q.Size = 2147483647) : Queue.Push w junk q item = .fault q := by
  unfold Queue.Push Array.AddItem Array.Add Array.Resize
  rw [hn]
  simp [toI32]

theorem pushAll_spec (w : Nat) (hw1 : 1 ≤ w) (hw2 : w < 4294967296) :
    ∀ (ps : List ((Nat → Nat) × List Nat)) (q : Queue) (n : Nat), Array.WF w q → q.Size = n →
      n + ps.length < 2147483648 → (∀ p ∈ ps, p.2.length = w) →
      ∃ q1, Queue.pushAll w ps q = .ok q1 () ∧ Array.WF w q1 ∧
        q1.Size = ((n + ps.length : Nat) : Int) ∧
        Array.live w q1 = Array.live w q ++ ps.map Prod.snd := by
  intro ps
  induction ps with
  | nil =>
    intro q n hwf hn _ _
    exact ⟨q, rfl, hwf, by simpa using hn, by simp⟩
  | cons p ps ih =>
    intro q n hwf hn hlen hall
    simp only [List.length_cons] at hlen
    obtain ⟨q1, h1, h2, h3, h4⟩ := Push_spec w p.1 q n p.2 hw1 hw2 hwf hn (by omega)
      (hall p (List.mem_cons_self _ _))
    obtain ⟨q2, g1, g2, g3, g4⟩ := ih q1 (n + 1) h2 (by rw [h3]; push_cast; rfl) (by omega)
      (fun x hx => hall x (List.mem_cons_of_mem _ hx))
    refine ⟨q2, ?_, g2, ?_, ?_⟩
    · simp only [Queue.pushAll, h1, g1]
    · rw [g3]; simp only [List.length_cons]; push_cast; omega
    · rw [g4, h4]; simp

theorem pushAll_append (w : Nat) (ps : List ((Nat → Nat) × List Nat))
    (p : (Nat → Nat) × List Nat) : ∀ (q : Queue),
    Queue.pushAll w (ps ++ [p]) q =
      match Queue.pushAll w ps q with
      | .ok q1 _ => (match Queue.Push w p.1 q1 p.2 with
        | .ok q2 _ => .ok q2 ()
        | .fault q2 => .fault q2
        | .undefined => .undefined)
      | .fault q1 => .fault q1
      | .undefined => .undefined := by
  induction ps with
  | nil =>
    intro q
    cases h : Queue.Push w p.1 q p.2 <;> simp [Queue.pushAll, h]
  | cons x ps ih =>
    intro q
    simp only [List.cons_append, Queue.pushAll]
    cases Queue.Push w x.1 q x.2 with
    | ok q1 _ => exact ih q1
    | fault q1 => rfl
    | undefined => rfl

theorem popN_spec (w : Nat) : ∀ (l : List (List Nat)) (q : Queue), Array.WF w q →
    Array.live w q = l →
    ∃ q1, Queue.popN w l.length q = .ok q1 l ∧ q1.Size = 0 ∧ q1.Reserve = q.Reserve := by
  intro l
  induction l with
  | nil =>
    intro q hwf hl
    refine ⟨q, rfl, ?_, rfl⟩
    have := live_length w q
    rw [hl] at this
    have h0 := hwf.1
    simp at this
    omega
  | cons h t ih =>
    intro q hwf hl
    obtain ⟨q1, h1, h2, h3, _, h5, _⟩ := Pop_spec w q h t hwf hl
    obtain ⟨q2, g1, g2, g3⟩ := ih q1 h2 h3
    refine ⟨q2, ?_, g2, by rw [g3, h5]⟩
    simp only [List.length_cons, Queue.popN, h1, g1]

theorem new_WF (w : Nat) (hw : w < 18446744073709551616) : (Array.new w).WF w := by
  unfold Array.WF Array.new calloc
  simp
  omega

theorem new_live (w : Nat) : (Array.new w).live w = [] := by
  simp [Array.live, Array.new]

/-! ## Size and Reserve after each call -/

/-- The two fields after a `Reserve_Memory(s)` that returned normally. -/
theorem Reserve_Memory_fields (w : Nat) (junk : Nat → Nat) (a a1 : Array) (s : Int) (u : Unit)
    (h : a.Reserve_Memory w junk s = .ok a1 u) :
    a1.Size = a.Size ∧ a.Reserve < s ∧ 0 < s ∧
      a1.Reserve = toI32 (toU32 (pow15 (floorLog15 s.toNat + 1))) := by
  unfold Array.Reserve_Memory at h
  split at h
  · cases h
  · split at h
    · cases h
    · simp only [] at h
      split at h
      · cases h
      · cases h
        refine ⟨rfl, by omega, by omega, rfl⟩

/-- The two fields after a `Resize(s)` that returned normally. -/
theorem Resize_fields (w : Nat) (junk : Nat → Nat) (a a1 : Array) (s : Int) (u : Unit)
    (h : a.Resize w junk s = .ok a1 u) :
    a1.Size = s ∧ a.Size < s ∧
      ((s ≤ a.Reserve ∧ a1.Reserve = a.Reserve) ∨
        (a.Reserve < s ∧ 0 < s ∧
          a1.Reserve = toI32 (toU32 (pow15 (floorLog15 s.toNat + 1))))) := by
  unfold Array.Resize at h
  split at h
  · cases h
  · split at h
    · cases h
      exact ⟨rfl, by omega, Or.inl ⟨by assumption, rfl⟩⟩
    · split at h
      · rename_i a2 u2 h2
        cases h
        obtain ⟨_, g2, g3, g4⟩ := Reserve_Memory_fields w junk a a2 s u2 h2
        exact ⟨rfl, by omega, Or.inr ⟨g2, g3, g4⟩⟩
      · cases h
      · cases h

theorem pow15_52 : pow15 52 = 1434648375 := by decide

theorem Resize_CapInv (w : Nat) (junk : Nat → Nat) (a a1 : Array) (s : Int) (u : Unit)
    (hinv : CapInv a) (h : a.Resize w junk s = .ok a1 u) (hcap : a1.Size ≤ 1434648375) :
    CapInv a1 := by
  obtain ⟨h1, h2, h3⟩ := Resize_fields w junk a a1 s u h
  obtain ⟨i1, i2, i3⟩ := hinv
  rcases h3 with ⟨g1, g2⟩ | ⟨g1, g2, g3⟩
  · exact ⟨by omega, by omega, by omega⟩
  · have hs : 1 ≤ s.toNat := by omega
    have hle := le_newSize s.toNat hs
    have hmin := newSize_minimal s.toNat hs 52 (by rw [pow15_52]; omega)
    rw [pow15_52] at hmin
    generalize pow15 (floorLog15 s.toNat + 1) = G at hle hmin g3
    have : a1.Reserve = (G : Int) := by
      rw [g3]; unfold toI32 toU32; omega
    exact ⟨by omega, by omega, by omega⟩

theorem Remove_fields (w : Nat) (a a1 : Array) (i : Int) (u : Unit)
    (h : a.Remove w i = .ok a1 u) :
    a1.Size = a.Size - 1 ∧ a1.Reserve = a.Reserve ∧ 0 ≤ i ∧ i < a.Size := by
  unfold Array.Remove at h
  split at h
  · cases h
  · rename_i hg
    simp only [not_not] at hg
    simp only [] at h
    split at h
    all_goals first | (cases h; exact ⟨rfl, rfl, hg.1, hg.2⟩) | cases h

theorem Remove_Ordered_fields (w : Nat) (a a1 : Array) (i : Int) (u : Unit)
    (h : a.Remove_Ordered w i = .ok a1 u) :
    a1.Size = a.Size - 1 ∧ a1.Reserve = a.Reserve ∧ 0 ≤ i ∧ i < a.Size := by
  unfold Array.Remove_Ordered at h
  split at h
  · cases h
  · rename_i hg
    simp only [not_not] at hg
    simp only [] at h
    split at h
    all_goals first | (cases h; exact ⟨rfl, rfl, hg.1, hg.2⟩) | cases h

theorem Add_fields (w : Nat) (junk : Nat → Nat) (a a1 : Array) (r : Int)
    (h : a.Add w junk = .ok a1 r) : a.Resize w junk (toI32 (a.Size + 1)) = .ok a1 () := by
  unfold Array.Add at h
  split at h
  · rename_i a2 u2 h2
    cases h
    exact h2
  · cases h
  · cases h

theorem AddItem_fields (w : Nat) (junk : Nat → Nat) (a a1 : Array) (item : List Nat) (r : Int)
    (h : a.AddItem w junk item = .ok a1 r) :
    ∃ a2, a.Resize w junk (toI32 (a.Size + 1)) = .ok a2 () ∧ a1.Size = a2.Size ∧
      a1.Reserve = a2.Reserve := by
  unfold Array.AddItem at h
  split at h
  · rename_i a2 r2 h2
    split at h
    · cases h
    · cases h
      exact ⟨a2, Add_fields w junk a a2 r2 h2, rfl, rfl⟩
  · cases h
  · cases h

theorem Insert_fields (w : Nat) (junk : Nat → Nat) (a a1 : Array) (i : Int) (r : Int)
    (h : a.Insert w junk i = .ok a1 r) :
    ∃ a2, a.Resize w junk (toI32 (a.Size + 1)) = .ok a2 () ∧ a1.Size = a2.Size ∧
      a1.Reserve = a2.Reserve := by
  unfold Array.Insert at h
  split at h
  · rename_i a2 u2 h2
    simp only at h
    split at h
    · cases h
    · cases h
      exact ⟨a2, h2, rfl, rfl⟩
  · cases h
  · cases h

theorem InsertItem_fields (w : Nat) (junk : Nat → Nat) (a a1 : Array) (i : Int)
    (item : List Nat) (r : Int) (h : a.InsertItem w junk i item = .ok a1 r) :
    ∃ a2, a.Resize w junk (toI32 (a.Size + 1)) = .ok a2 () ∧ a1.Size = a2.Size ∧
      a1.Reserve = a2.Reserve := by
  unfold Array.InsertItem at h
  split at h
  · rename_i a2 r2 h2
    split at h
    · cases h
    · cases h
      obtain ⟨a3, g1, g2, g3⟩ := Insert_fields w junk a a2 i r2 h2
      exact ⟨a3, g1, g2, g3⟩
  · cases h
  · cases h

theorem Pop_fields (w : Nat) (q q1 : Queue) (r : List Nat) (h : Queue.Pop w q = .ok q1 r) :
    q1.Size = q.Size - 1 ∧ q1.Reserve = q.Reserve ∧ 0 < q.Size := by
  unfold Queue.Pop at h
  split at h
  · cases h
  · cases hr : Array.Remove_Ordered w q 0 with
    | ok q2 u2 =>
      obtain ⟨g1, g2, g3, g4⟩ := Remove_Ordered_fields w q q2 0 u2 hr
      rw [hr] at h
      split at h
      · cases h
      · cases h
        exact ⟨g1, g2, by omega⟩
    | fault q2 => rw [hr] at h; split at h <;> cases h
    | undefined => rw [hr] at h; split at h <;> cases h

theorem Push_fields (w : Nat) (junk : Nat → Nat) (q q1 : Queue) (item : List Nat) (u : Unit)
    (h : Queue.Push w junk q item = .ok q1 u) :
    ∃ a2, Array.Resize w junk q (toI32 (q.Size + 1)) = .ok a2 () ∧ q1.Size = a2.Size ∧
      q1.Reserve = a2.Reserve := by
  unfold Queue.Push at h
  cases hr : Array.AddItem w junk q item with
  | ok a2 r2 =>
    rw [hr] at h
    cases h
    exact AddItem_fields w junk q q1 item r2 hr
  | fault a2 => rw [hr] at h; cases h
  | undefined => rw [hr] at h; cases h

theorem state?_eq_some {σ α : Type} (o : Outcome σ α) (s : σ) (h : o.state? = some s) :
    ∃ r, o = .ok s r := by
  cases o with
  | ok st r => simp [Outcome.state?] at h; exact ⟨r, by rw [h]⟩
  | fault st => simp [Outcome.state?] at h
  | undefined => simp [Outcome.state?] at h

/-- One call that returns normally and leaves `Size` at most `floor(1.5^52)`
keeps the capacity invariant. -/
theorem Call_run_CapInv (w : Nat) (a a1 : Array) (c : Call) (hinv : CapInv a)
    (h : c.run w a = some a1) (hcap : a1.Size ≤ 1434648375) : CapInv a1 := by
  cases c with
  | resize junk s =>
    obtain ⟨r, hr⟩ := state?_eq_some _ _ h
    exact Resize_CapInv w junk a a1 s r hinv hr hcap
  | add junk =>
    obtain ⟨r, hr⟩ := state?_eq_some _ _ h
    exact Resize_CapInv w junk a a1 _ () hinv (Add_fields w junk a a1 r hr) hcap
  | addItem junk item =>
    obtain ⟨r, hr⟩ := state?_eq_some _ _ h
    obtain ⟨a2, g1, g2, g3⟩ := AddItem_fields w junk a a1 item r hr
    have := Resize_CapInv w junk a a2 _ () hinv g1 (by omega)
    unfold CapInv at this ⊢
    rw [g2, g3]; exact this
  | insert junk i =>
    obtain ⟨r, hr⟩ := state?_eq_some _ _ h
    obtain ⟨a2, g1, g2, g3⟩ := Insert_fields w junk a a1 i r hr
    have := Resize_CapInv w junk a a2 _ () hinv g1 (by omega)
    unfold CapInv at this ⊢
    rw [g2, g3]; exact this
  | insertItem junk i item =>
    obtain ⟨r, hr⟩ := state?_eq_some _ _ h
    obtain ⟨a2, g1, g2, g3⟩ := InsertItem_fields w junk a a1 i item r hr
    have := Resize_CapInv w junk a a2 _ () hinv g1 (by omega)
    unfold CapInv at this ⊢
    rw [g2, g3]; exact this
  | remove i =>
    obtain ⟨r, hr⟩ := state?_eq_some _ _ h
    obtain ⟨g1, g2, g3, g4⟩ := Remove_fields w a a1 i r hr
    obtain ⟨i1, i2, i3⟩ := hinv
    exact ⟨by omega, by omega, by omega⟩
  | removeOrdered i =>
    obtain ⟨r, hr⟩ := state?_eq_some _ _ h
    obtain ⟨g1, g2, g3, g4⟩ := Remove_Ordered_fields w a a1 i r hr
    obtain ⟨i1, i2, i3⟩ := hinv
    exact ⟨by omega, by omega, by omega⟩
  | push junk item =>
    obtain ⟨r, hr⟩ := state?_eq_some _ _ h
    obtain ⟨a2, g1, g2, g3⟩ := Push_fields w junk a a1 item r hr
    have := Resize_CapInv w junk a a2 _ () hinv g1 (by omega)
    unfold CapInv at this ⊢
    rw [g2, g3]; exact this
  | pop =>
    obtain ⟨r, hr⟩ := state?_eq_some _ _ h
    obtain ⟨g1, g2, g3⟩ := Pop_fields w a a1 r hr
    obtain ⟨i1, i2, i3⟩ := hinv
    exact ⟨by omega, by omega, by omega⟩

theorem runAllBelow_CapInv (w : Nat) : ∀ (cs : List Call) (a a1 : Array), CapInv a →
    Call.runAllBelow w 1434648375 cs a = some a1 → CapInv a1 := by
  intro cs
  induction cs with
  | nil =>
    intro a a1 hinv h
    simp only [Call.runAllBelow, Option.some.injEq] at h
    rw [← h]; exact hinv
  | cons c cs ih =>
    intro a a1 hinv h
    simp only [Call.runAllBelow] at h
    split at h
    · rename_i a2 h2
      split at h
      · rename_i hcap
        exact ih a2 a1 (Call_run_CapInv w a a2 c hinv h2 hcap) h
      · cases h
    · cases h

/-! ## The push that overflows Size -/

theorem replicate_split (x : (Nat → Nat) × List Nat) :
    List.replicate 2147483648 x = List.replicate 2147483647 x ++ [x] :=
  List.replicate_succ' 2147483647 x

theorem pushAll_fault_of (w : Nat) (ps : List ((Nat → Nat) × List Nat))
    (p : (Nat → Nat) × List Nat) (q q1 : Queue) (h1 : Queue.pushAll w ps q = .ok q1 ())
    (h2 : q1.Size = 2147483647) : Queue.pushAll w (ps ++ [p]) q = .fault q1 := by
  rw [pushAll_append, h1]
  simp only
  rw [Push_at_max w _ q1 _ h2]

theorem roundTrip_fault_of (w : Nat) (ps : List ((Nat → Nat) × List Nat)) (q1 : Queue)
    (h : Queue.pushAll w ps (Queue.new w) = .fault q1) : (Queue.roundTrip w ps).isFault = true := by
  unfold Queue.roundTrip
  rw [h]
  rfl

/-! ## Auxiliary facts for the claims -/

/-- On a duplicate-free list, overwriting position `m` with the last element and
dropping the last position gives the same list as erasing position `m` exactly
when `m` is one of the last two positions. -/
theorem set_last_dropLast_eq_eraseIdx_iff {α : Type} (l : List α) (d : α) (m : Nat)
    (hm : m < l.length) (hnd : l.Nodup) :
    (l.set m (l.getLastD d)).dropLast = l.eraseIdx m ↔ l.length ≤ m + 2 := by
  have hlast : some (l.getLastD d) = l[l.length - 1]? := by
    rw [List.getLastD_eq_getLast?, List.getLast?_eq_getElem?,
      List.getElem?_eq_getElem (show l.length - 1 < l.length by omega)]
    rfl
  constructor
  · intro h
    by_contra hc
    have h1 := congrArg (fun x => x[m]?) h
    simp only at h1
    rw [List.getElem?_dropLast, List.length_set, if_pos (by omega), List.getElem?_set,
      if_pos rfl, if_pos hm, List.getElem?_eraseIdx, if_neg (by omega), hlast,
      List.getElem?_eq_getElem (show m + 1 < l.length by omega),
      List.getElem?_eq_getElem (show l.length - 1 < l.length by omega)] at h1
    have h2 := Option.some.inj h1
    have h3 := hnd.getElem_inj_iff.1 h2
    omega
  · intro h
    apply List.ext_getElem?
    intro j
    rw [List.getElem?_dropLast, List.length_set, List.getElem?_set, List.getElem?_eraseIdx]
    by_cases hj : j < l.length - 1
    · rw [if_pos hj]
      by_cases hjm : m = j
      · subst hjm
        rw [if_pos rfl, if_pos hm, if_neg (by omega), hlast]
        congr 1
        omega
      · rw [if_neg hjm, if_pos (by omega)]
    · rw [if_neg hj]
      by_cases hjm : j < m
      · omega
      · rw [if_neg hjm, eq_comm, List.getElem?_eq_none]
        omega

theorem sample3_reached :
    Call.runAll 1 [.addItem (fun _ => 0) [10], .addItem (fun _ => 0) [20],
      .addItem (fun _ => 0) [30]] (Array.new 1) = some sample3 := by decide

theorem CapInv_new (w : Nat) : CapInv (Array.new w) := by
  unfold CapInv Array.new
  simp

/-! ## A request above floor(1.5^52) -/

theorem toI32_pow15_53 : toI32 ((pow15 (floorLog15 2000000000 + 1) : Nat) : Int) = -2142994733 := by
  decide

/-- The call `Resize(2000000000)` on a fresh `Array<u8>`: the fields it leaves. -/
theorem Resize_big_fields : ∃ a1, (Array.new 1).Resize 1 (fun _ => 0) 2000000000 = .ok a1 () ∧
    a1.Size = 2000000000 ∧ a1.Reserve = -2142994733 := by
  obtain ⟨a1, h1, _, h3, _, h5⟩ := Resize_spec 1 (fun _ => 0) (Array.new 1) 0 2000000000
    (by decide) (by decide) (new_WF 1 (by decide)) rfl (by omega) (by omega)
  simp only [Nat.cast_ofNat] at h1 h3 h5
  have hR : (Array.new 1).Reserve = 1 := rfl
  rw [hR, if_neg (by omega), toI32_pow15_53] at h5
  exact ⟨a1, h1, h3, h5⟩

/-- The call `Reserve_Memory(2000000000)` on a fresh `Array<u8>`: the `Reserve` it leaves. -/
theorem Reserve_Memory_big_fields : ∃ a1,
    (Array.new 1).Reserve_Memory 1 (fun _ => 0) 2000000000 = .ok a1 () ∧
      a1.Reserve = -2142994733 := by
  have hR : (Array.new 1).Reserve = 1 := rfl
  obtain ⟨d, h, _⟩ := Reserve_Memory_spec 1 (fun _ => 0) (Array.new 1) 0 2000000000
    (by decide) (by decide) rfl (by omega) (by omega) (by omega) (by omega)
    (by rw [hR]; omega)
  simp only [Nat.cast_ofNat] at h
  rw [toI32_pow15_53] at h
  exact ⟨_, h, rfl⟩

/-! ## Running a single call -/

theorem run_resize (w : Nat) (a : Array) (junk : Nat → Nat) (s : Int) :
    Call.run w a (Call.resize junk s) = (a.Resize w junk s).state? := rfl

theorem runAll_single (w : Nat) (c : Call) (a a1 : Array) (h : c.run w a = some a1) :
    Call.runAll w [c] a = some a1 := by
  simp only [Call.runAll, h]

theorem runAll_Resize_big : ∃ a1,
    Call.runAll 1 [Call.resize (fun _ => 0) 2000000000] (Array.new 1) = some a1 ∧
      a1.Size = 2000000000 ∧ a1.Reserve = -2142994733 := by
  obtain ⟨a1, h1, h3, h5⟩ := Resize_big_fields
  refine ⟨a1, runAll_single 1 _ _ a1 ?_, h3, h5⟩
  rw [run_resize, h1]
  rfl

/-! ## Claims -/


/-- C1 (as amended): for every element width `1 ≤ w < 2^32` and every sequence of fewer than
`2^31` values of that width, pushing them in order onto a fresh Queue and popping as many
times returns exactly those values in that order, without fault, and leaves `Size = 0`. -/
theorem Queue_roundTrip (w : Nat) (ps : List ((Nat → Nat) × List Nat)) (hw1 : 1 ≤ w)
    (hw2 : w < 4294967296) (hlen : ps.length < 2147483648)
    (hall : ∀ p ∈ ps, p.2.length = w) :
    ∃ q, Queue.roundTrip w ps = .ok q (ps.map Prod.snd) ∧ q.Size = 0 := by
  obtain ⟨q1, h1, h2, h3, h4⟩ := pushAll_spec w hw1 hw2 ps (Queue.new w) 0
    (new_WF w (by omega)) rfl (by omega) hall
  rw [show Array.live w (Queue.new w) = [] from new_live w, List.nil_append] at h4
  obtain ⟨q2, g1, g2, _⟩ := popN_spec w (ps.map Prod.snd) q1 h2 h4
  rw [List.length_map] at g1
  refine ⟨q2, ?_, g2⟩
  unfold Queue.roundTrip
  rw [h1]
  exact g1

/-- Witness for C1: two bytes pushed and popped. -/
theorem Queue_roundTrip_witness :
    (1 ≤ 1 ∧ 1 < 4294967296 ∧
      [((fun _ => 0 : Nat → Nat), [10]), ((fun _ => 0 : Nat → Nat), [20])].length < 2147483648 ∧
      (∀ p ∈ [((fun _ => 0 : Nat → Nat), [10]), ((fun _ => 0 : Nat → Nat), [20])],
        p.2.length = 1)) ∧
    ∃ q, Queue.roundTrip 1 [((fun _ => 0 : Nat → Nat), [10]), ((fun _ => 0 : Nat → Nat), [20])]
      = .ok q [[10], [20]] ∧ q.Size = 0 :=
  ⟨⟨by decide, by decide, by decide, by simp⟩,
    Queue_roundTrip 1 [((fun _ => 0 : Nat → Nat), [10]), ((fun _ => 0 : Nat → Nat), [20])]
      (by decide) (by decide) (by decide) (by simp)⟩

/-- C1 (as stated) fails at `n = 2^31`: the last of `2^31` pushes onto a fresh `Queue<u8>`
finds `Size = 2^31 - 1`, `Size + 1` wraps to `-2^31`, and `Resize` faults. -/
theorem Queue_roundTrip_overflow :
    (Queue.roundTrip 1
      (List.replicate 2147483648 ((fun _ => 0 : Nat → Nat), [0]))).isFault = true := by
  obtain ⟨q1, h1, _, h3, _⟩ := pushAll_spec 1 (by decide) (by decide)
    (List.replicate 2147483647 ((fun _ => 0 : Nat → Nat), [0])) (Queue.new 1) 0
    (new_WF 1 (by decide)) rfl (by rw [List.length_replicate]; omega)
    (fun p hp => by rw [List.eq_of_mem_replicate hp]; rfl)
  rw [List.length_replicate] at h3
  have h4 : q1.Size = 2147483647 := by rw [h3]; omega
  rw [replicate_split]
  exact roundTrip_fault_of 1 _ q1 (pushAll_fault_of 1 _ _ _ q1 h1 h4)

/-- C2 fails on the code: on the `Array<u8>` holding `10, 20, 30`, `Insert(0, 99)` followed
by `Remove_Ordered(0)` leaves `10, 10, 10`, because the forward byte copy of `Memory_Move`
overwrites its own source when it shifts to the right. -/
theorem Insert_Remove_Ordered_smears :
    sample3.live 1 = [[10], [20], [30]] ∧
      sample3.insertThenRemove 1 (fun _ => 0) 0 [99] = some [[10], [10], [10]] := by
  decide

/-- C3: `Pop` on a queue with `Size == 0` raises the fault with the state untouched. -/
theorem Pop_empty_faults (w : Nat) (q : Queue) (h : q.Size = 0) :
    Queue.Pop w q = .fault q := by
  unfold Queue.Pop
  rw [if_pos h]

/-- Witness for C3: `Pop` on a fresh `Queue<u8>`. -/
theorem Pop_empty_faults_witness :
    (Queue.new 1).Size = 0 ∧ Queue.Pop 1 (Queue.new 1) = .fault (Queue.new 1) :=
  ⟨by decide, Pop_empty_faults 1 (Queue.new 1) (by decide)⟩

/-- C4: on a queue whose live contents are `h :: t`, `Pop` returns `h` and leaves live
contents `t`, with `Size` one less and `Reserve` unchanged. -/
theorem Pop_step (w : Nat) (q : Queue) (h : List Nat) (t : List (List Nat))
    (hwf : Array.WF w q) (hl : Array.live w q = h :: t) :
    ∃ q1, Queue.Pop w q = .ok q1 h ∧ Array.live w q1 = t ∧ q1.Size = q.Size - 1 ∧
      q1.Reserve = q.Reserve := by
  obtain ⟨q1, h1, _, h3, h4, h5, _⟩ := Pop_spec w q h t hwf hl
  exact ⟨q1, h1, h3, h4, h5⟩

/-- Witness for C4: `Pop` on the queue holding `10, 20, 30`. -/
theorem Pop_step_witness :
    (Array.WF 1 sample3 ∧ Array.live 1 sample3 = [10] :: [[20], [30]]) ∧
      ∃ q1, Queue.Pop 1 sample3 = .ok q1 [10] ∧ Array.live 1 q1 = [[20], [30]] ∧
        q1.Size = sample3.Size - 1 ∧ q1.Reserve = sample3.Reserve :=
  ⟨⟨by decide, by decide⟩, Pop_step 1 sample3 [10] [[20], [30]] (by decide) (by decide)⟩

/-- C5: for `0 ≤ i < Size`, `Remove_Ordered(i)` returns normally, erases element `i` from
the live contents (the others keep their order) and lowers `Size` by one; for any other `i`
it faults. -/
theorem Remove_Ordered_erases (w : Nat) (a : Array) (i : Int) (hwf : a.WF w) :
    (0 ≤ i ∧ i < a.Size → ∃ a1, a.Remove_Ordered w i = .ok a1 () ∧
        a1.live w = (a.live w).eraseIdx i.toNat ∧ a1.Size = a.Size - 1) ∧
      (¬ (0 ≤ i ∧ i < a.Size) → a.Remove_Ordered w i = .fault a) := by
  constructor
  · intro hi
    have hn : a.Size = (a.Size.toNat : Int) := by have := hwf.1; omega
    have hm : i = (i.toNat : Int) := by omega
    obtain ⟨a1, h1, _, h3, _, _, h6⟩ :=
      Remove_Ordered_live w a a.Size.toNat i.toNat hwf hn (by omega)
    rw [← hm] at h1
    exact ⟨a1, h1, h6, h3⟩
  · intro hi
    unfold Array.Remove_Ordered
    rw [if_pos (by simpa using hi)]

/-- Witness for C5: `Remove_Ordered(0)` on `10, 20, 30` leaves `20, 30`. -/
theorem Remove_Ordered_erases_witness :
    sample3.WF 1 ∧ ∃ a1, sample3.Remove_Ordered 1 0 = .ok a1 () ∧
      a1.live 1 = (sample3.live 1).eraseIdx (0 : Int).toNat ∧ a1.Size = sample3.Size - 1 :=
  ⟨by decide, (Remove_Ordered_erases 1 sample3 0 (by decide)).1 (by decide)⟩

/-- C6: for `0 ≤ i < Size`, `Remove(i)` returns normally, lowers `Size` by one, and the new
live contents are the old ones with slot `i` overwritten by the old last element and the
last slot dropped; for any other `i` it faults. -/
theorem Remove_swaps_last (w : Nat) (a : Array) (i : Int) (hwf : a.WF w) :
    (0 ≤ i ∧ i < a.Size → ∃ a1, a.Remove w i = .ok a1 () ∧ a1.Size = a.Size - 1 ∧
        a1.live w = ((a.live w).set i.toNat ((a.live w).getLastD [])).dropLast) ∧
      (¬ (0 ≤ i ∧ i < a.Size) → a.Remove w i = .fault a) := by
  constructor
  · intro hi
    have hn : a.Size = (a.Size.toNat : Int) := by have := hwf.1; omega
    have hm : i = (i.toNat : Int) := by omega
    obtain ⟨a1, h1, _, h3, _, h5⟩ := Remove_live w a a.Size.toNat i.toNat hwf hn (by omega)
    rw [← hm] at h1
    exact ⟨a1, h1, h3, h5⟩
  · intro hi
    unfold Array.Remove
    rw [if_pos (by simpa using hi)]

/-- Witness for C6: `Remove(0)` on `10, 20, 30` leaves `30, 20`. -/
theorem Remove_swaps_last_witness :
    sample3.WF 1 ∧ ∃ a1, sample3.Remove 1 0 = .ok a1 () ∧ a1.Size = sample3.Size - 1 ∧
      a1.live 1 = ((sample3.live 1).set (0 : Int).toNat ((sample3.live 1).getLastD [])).dropLast :=
  ⟨by decide, (Remove_swaps_last 1 sample3 0 (by decide)).1 (by decide)⟩

/-- C7 (as stated) fails: on `10, 20, 30`, `Remove(1)` and `Remove_Ordered(1)` both leave
`10, 30`, yet `1` is not the last index. -/
theorem Remove_keeps_order_at_second_last :
    (sample3.Remove 1 1).state?.map (Array.live 1) = some [[10], [30]] ∧
      (sample3.Remove_Ordered 1 1).state?.map (Array.live 1) = some [[10], [30]] ∧
      (1 : Int) ≠ sample3.Size - 1 := by
  decide

/-- C7 (as amended): when the live elements are pairwise distinct and `0 ≤ i < Size`,
`Remove(i)` leaves the same live contents as `Remove_Ordered(i)` exactly when `i` is the
last or the second-to-last index. -/
theorem Remove_keeps_order_iff (w : Nat) (a : Array) (i : Int) (hwf : a.WF w)
    (h0 : 0 ≤ i) (h1 : i < a.Size) (hnd : (a.live w).Nodup) :
    ∃ a1 a2, a.Remove w i = .ok a1 () ∧ a.Remove_Ordered w i = .ok a2 () ∧
      (a1.live w = a2.live w ↔ a.Size - 2 ≤ i) := by
  have hn : a.Size = (a.Size.toNat : Int) := by have := hwf.1; omega
  have hm : i = (i.toNat : Int) := by omega
  obtain ⟨a1, g1, _, _, _, g5⟩ := Remove_live w a a.Size.toNat i.toNat hwf hn (by omega)
  obtain ⟨a2, k1, _, _, _, _, k6⟩ :=
    Remove_Ordered_live w a a.Size.toNat i.toNat hwf hn (by omega)
  rw [← hm] at g1 k1
  refine ⟨a1, a2, g1, k1, ?_⟩
  rw [g5, k6, set_last_dropLast_eq_eraseIdx_iff (a.live w) [] i.toNat
    (by rw [live_length]; omega) hnd, live_length]
  omega

/-- Witness for C7 (as amended): index `1` of `10, 20, 30`. -/
theorem Remove_keeps_order_iff_witness :
    (sample3.WF 1 ∧ (0 : Int) ≤ 1 ∧ (1 : Int) < sample3.Size ∧ (sample3.live 1).Nodup) ∧
      ∃ a1 a2, sample3.Remove 1 1 = .ok a1 () ∧ sample3.Remove_Ordered 1 1 = .ok a2 () ∧
        (a1.live 1 = a2.live 1 ↔ sample3.Size - 2 ≤ 1) :=
  ⟨⟨by decide, by decide, by decide, by decide⟩,
    Remove_keeps_order_iff 1 sample3 1 (by decide) (by decide) (by decide) (by decide)⟩

/-- C8 (as stated) fails for a large request: `Reserve_Memory(2000000000)` on a fresh
`Array<u8>` computes `floor(1.5^53) = 2151972563`, which does not fit the `i32` field, and
stores `Reserve = -2142994733`. -/
theorem Reserve_Memory_wraps :
    ((Array.new 1).Reserve_Memory 1 (fun _ => 0) 2000000000).state?.map Array.Reserve
      = some (-2142994733) := by
  obtain ⟨a1, h, hr⟩ := Reserve_Memory_big_fields
  rw [h]
  simp only [Outcome.state?, Option.map_some']
  rw [hr]

/-- C8 (as amended): for an element width `1 ≤ w < 2^32`, a Dynamic Array with
`Size ≤ Reserve` and a request `Reserve < s ≤ 1434648375 = floor(1.5^52)`,
`Reserve_Memory(s)` returns normally and sets `Reserve` to the smallest value of the form
`floor(1.5^k)` that is at least `s`; for `s ≤ Reserve` it faults. -/
theorem Reserve_Memory_growth (w : Nat) (junk : Nat → Nat) (a : Array) (s : Int)
    (hw1 : 1 ≤ w) (hw2 : w < 4294967296) (hwf : a.WF w) (hsr : a.Size ≤ a.Reserve) :
    (s ≤ a.Reserve → a.Reserve_Memory w junk s = .fault a) ∧
      (a.Reserve < s → s ≤ 1434648375 →
        ∃ a1, a.Reserve_Memory w junk s = .ok a1 () ∧ (∃ k, a1.Reserve = (pow15 k : Nat)) ∧
          s ≤ a1.Reserve ∧ ∀ k, s ≤ (pow15 k : Nat) → a1.Reserve ≤ (pow15 k : Nat)) := by
  constructor
  · intro h
    unfold Array.Reserve_Memory
    rw [if_pos (by omega)]
  · intro h1 h2
    obtain ⟨g1, g2, _, _⟩ := hwf
    have hs : s = (s.toNat : Int) := by omega
    have hn : a.Size = (a.Size.toNat : Int) := by omega
    have hlen : a.Size.toNat * w ≤ a.Data.length := by
      rw [hn] at g2; exact_mod_cast g2
    obtain ⟨d, hd, _⟩ := Reserve_Memory_spec w junk a a.Size.toNat s.toNat hw1 hw2 hn
      (by omega) hlen (by omega) (by omega) (by omega)
    rw [← hs] at hd
    have hle := le_newSize s.toNat (by omega)
    have hmin := newSize_minimal s.toNat (by omega)
    have hmin52 := hmin 52 (by rw [pow15_52]; omega)
    rw [pow15_52] at hmin52
    have hk : ∃ k, pow15 (floorLog15 s.toNat + 1) = pow15 k := ⟨_, rfl⟩
    generalize pow15 (floorLog15 s.toNat + 1) = G at hd hle hmin hmin52 hk
    have hI : toI32 (G : Int) = (G : Int) := by
      rw [toI32_of_range] <;> omega
    rw [hI] at hd
    have hsG : s ≤ (G : Int) := by
      have : s.toNat ≤ G := hle
      have h3 : (0:Int) ≤ s := by omega
      exact Int.toNat_le.mp this
    have hsN : ∀ k, s ≤ ((pow15 k : Nat) : Int) → s.toNat ≤ pow15 k := by
      intro k hk
      generalize pow15 k = P at hk ⊢
      omega
    obtain ⟨k0, hk0⟩ := hk
    refine ⟨{ Data := d, Size := a.Size, Reserve := (G : Int) }, hd, ⟨k0, ?_⟩, hsG, ?_⟩
    · show (G : Int) = ((pow15 k0 : Nat) : Int)
      rw [hk0]
    · intro k hk
      show (G : Int) ≤ ((pow15 k : Nat) : Int)
      have := hmin k (hsN k hk)
      exact_mod_cast this

/-- Witness for C8 (as amended): growing the full array `10, 20, 30` for a request of `4`. -/
theorem Reserve_Memory_growth_witness :
    (1 ≤ 1 ∧ 1 < 4294967296 ∧ sample3.WF 1 ∧ sample3.Size ≤ sample3.Reserve) ∧
      ∃ a1, sample3.Reserve_Memory 1 (fun _ => 0) 4 = .ok a1 () ∧
        (∃ k, a1.Reserve = (pow15 k : Nat)) ∧ (4 : Int) ≤ a1.Reserve ∧
        ∀ k, (4 : Int) ≤ (pow15 k : Nat) → a1.Reserve ≤ (pow15 k : Nat) :=
  ⟨⟨by decide, by decide, by decide, by decide⟩,
    (Reserve_Memory_growth 1 (fun _ => 0) sample3 4 (by decide) (by decide) (by decide)
      (by decide)).2 (by decide) (by decide)⟩

/-- C9 (as stated) fails: `Resize(2000000000)` on a fresh `Array<u8>` returns normally
with `Size = 2000000000` and `Reserve = -2142994733`. -/
theorem Resize_breaks_capacity :
    (Call.runAll 1 [Call.resize (fun _ => 0) 2000000000] (Array.new 1)).map
      (fun a => (a.Size, a.Reserve)) = some (2000000000, -2142994733) := by
  obtain ⟨a1, h1, h3, h5⟩ := runAll_Resize_big
  rw [h1, Option.map_some', h3, h5]

/-- C9 (as amended): in every state reached from a fresh Dynamic Array by calls that return
normally and never leave `Size` above `1434648375 = floor(1.5^52)`, `0 ≤ Size`,
`Size ≤ Reserve` and `Reserve ≥ 1` hold. -/
theorem capacity_invariant (w : Nat) (cs : List Call) (a : Array)
    (h : Call.runAllBelow w 1434648375 cs (Array.new w) = some a) :
    0 ≤ a.Size ∧ a.Size ≤ a.Reserve ∧ 1 ≤ a.Reserve :=
  runAllBelow_CapInv w cs (Array.new w) a (CapInv_new w) h

/-- Witness for C9 (as amended): three `Add` calls on a fresh `Array<u8>`. -/
theorem capacity_invariant_witness :
    Call.runAllBelow 1 1434648375 [.addItem (fun _ => 0) [10], .addItem (fun _ => 0) [20],
        .addItem (fun _ => 0) [30]] (Array.new 1) = some sample3 ∧
      (0 ≤ sample3.Size ∧ sample3.Size ≤ sample3.Reserve ∧ 1 ≤ sample3.Reserve) :=
  ⟨by decide, capacity_invariant 1 [.addItem (fun _ => 0) [10], .addItem (fun _ => 0) [20],
    .addItem (fun _ => 0) [30]] sample3 (by decide)⟩

/-- C10 fails on the code for elements wider than one byte: `Reserve_Memory(2)` on a fresh
`Array<u32>` zeroes only `newSize - Size = 2` bytes, so slot `1` keeps whatever bytes
`realloc` exposed (here `255`). -/
theorem Reserve_Memory_leaves_junk :
    ((Array.new 4).Reserve_Memory 4 (fun _ => 255) 2).state?.map (fun a => slot 4 a.Data 1)
      = some [255, 255, 255, 255] := by
  decide



/-! ## Bounded Array: the fields after each call -/

theorem SResize_fields (size : Nat) (a a1 : StaticArray) (s : Int) (u : Unit)
    (h : a.Resize size s = .ok a1 u) :
    a1.DataSize = s ∧ a1.Data = a.Data ∧ a.DataSize < s ∧ s < size := by
  unfold StaticArray.Resize at h
  split at h
  · cases h
  · rename_i hg
    simp only [not_not] at hg
    cases h
    exact ⟨rfl, rfl, hg.1, hg.2⟩

theorem SAdd_fields (size : Nat) (a a1 : StaticArray) (r : Int)
    (h : a.Add size = .ok a1 r) : a.Resize size (toI32 (a.DataSize + 1)) = .ok a1 () := by
  unfold StaticArray.Add at h
  cases hr : a.Resize size (toI32 (a.DataSize + 1)) with
  | ok a2 u2 => rw [hr] at h; cases h; rfl
  | fault a2 => rw [hr] at h; cases h
  | undefined => rw [hr] at h; cases h

theorem SAddItem_fields (size w : Nat) (a a1 : StaticArray) (item : List Nat) (r : Int)
    (h : a.AddItem size w item = .ok a1 r) :
    ∃ a2, a.Resize size (toI32 (a.DataSize + 1)) = .ok a2 () ∧ a1.DataSize = a2.DataSize := by
  unfold StaticArray.AddItem at h
  cases hr : a.Add size with
  | ok a2 r2 =>
    rw [hr] at h
    simp only at h
    split at h
    · cases h
    · cases h
      exact ⟨a2, SAdd_fields size a a2 r2 hr, rfl⟩
  | fault a2 => rw [hr] at h; cases h
  | undefined => rw [hr] at h; cases h

theorem SInsert_fields (size w : Nat) (a a1 : StaticArray) (i : Int) (r : Int)
    (h : a.Insert size w i = .ok a1 r) :
    ∃ a2, a.Resize size (toI32 (a.DataSize + 1)) = .ok a2 () ∧ a1.DataSize = a2.DataSize := by
  unfold StaticArray.Insert at h
  cases hr : a.Resize size (toI32 (a.DataSize + 1)) with
  | ok a2 u2 =>
    rw [hr] at h
    simp only at h
    split at h
    · cases h
    · cases h
      exact ⟨a2, rfl, rfl⟩
  | fault a2 => rw [hr] at h; cases h
  | undefined => rw [hr] at h; cases h

theorem SInsertItem_fields (size w : Nat) (a a1 : StaticArray) (i : Int) (item : List Nat)
    (r : Int) (h : a.InsertItem size w i item = .ok a1 r) :
    ∃ a2, a.Resize size (toI32 (a.DataSize + 1)) = .ok a2 () ∧ a1.DataSize = a2.DataSize := by
  unfold StaticArray.InsertItem at h
  cases hr : a.Insert size w i with
  | ok a2 r2 =>
    rw [hr] at h
    simp only at h
    split at h
    · cases h
    · cases h
      exact SInsert_fields size w a a2 i r2 hr
  | fault a2 => rw [hr] at h; cases h
  | undefined => rw [hr] at h; cases h

theorem SRemove_fields (w : Nat) (a a1 : StaticArray) (i : Int) (u : Unit)
    (h : a.Remove w i = .ok a1 u) :
    a1.DataSize = a.DataSize - 1 ∧ 0 ≤ i ∧ i < a.DataSize := by
  unfold StaticArray.Remove at h
  split at h
  · cases h
  · rename_i hg
    simp only [not_not] at hg
    simp only [] at h
    split at h
    all_goals first | (cases h; exact ⟨rfl, hg.1, hg.2⟩) | cases h

theorem SRemove_Ordered_fields (w : Nat) (a a1 : StaticArray) (i : Int) (u : Unit)
    (h : a.Remove_Ordered w i = .ok a1 u) :
    a1.DataSize = a.DataSize - 1 ∧ 0 ≤ i ∧ i < a.DataSize := by
  unfold StaticArray.Remove_Ordered at h
  split at h
  · cases h
  · rename_i hg
    simp only [not_not] at hg
    simp only [] at h
    split at h
    all_goals first | (cases h; exact ⟨rfl, hg.1, hg.2⟩) | cases h

/-- One call that returns normally keeps `0 ≤ DataSize ≤ size`. -/
theorem SCall_run_bound (size w : Nat) (a a1 : StaticArray) (c : SCall)
    (hinv : 0 ≤ a.DataSize ∧ a.DataSize ≤ size) (h : c.run size w a = some a1) :
    0 ≤ a1.DataSize ∧ a1.DataSize ≤ size := by
  cases c with
  | resize s =>
    obtain ⟨r, hr⟩ := state?_eq_some _ _ h
    obtain ⟨g1, _, g3, g4⟩ := SResize_fields size a a1 s r hr
    omega
  | add =>
    obtain ⟨r, hr⟩ := state?_eq_some _ _ h
    obtain ⟨g1, _, g3, g4⟩ := SResize_fields size a a1 _ () (SAdd_fields size a a1 r hr)
    omega
  | addItem item =>
    obtain ⟨r, hr⟩ := state?_eq_some _ _ h
    obtain ⟨a2, k1, k2⟩ := SAddItem_fields size w a a1 item r hr
    obtain ⟨g1, _, g3, g4⟩ := SResize_fields size a a2 _ () k1
    omega
  | insert i =>
    obtain ⟨r, hr⟩ := state?_eq_some _ _ h
    obtain ⟨a2, k1, k2⟩ := SInsert_fields size w a a1 i r hr
    obtain ⟨g1, _, g3, g4⟩ := SResize_fields size a a2 _ () k1
    omega
  | insertItem i item =>
    obtain ⟨r, hr⟩ := state?_eq_some _ _ h
    obtain ⟨a2, k1, k2⟩ := SInsertItem_fields size w a a1 i item r hr
    obtain ⟨g1, _, g3, g4⟩ := SResize_fields size a a2 _ () k1
    omega
  | remove i =>
    obtain ⟨r, hr⟩ := state?_eq_some _ _ h
    obtain ⟨g1, g2, g3⟩ := SRemove_fields w a a1 i r hr
    omega
  | removeOrdered i =>
    obtain ⟨r, hr⟩ := state?_eq_some _ _ h
    obtain ⟨g1, g2, g3⟩ := SRemove_Ordered_fields w a a1 i r hr
    omega

theorem SCall_runAll_bound (size w : Nat) : ∀ (cs : List SCall) (a a1 : StaticArray),
    (0 ≤ a.DataSize ∧ a.DataSize ≤ size) → SCall.runAll size w cs a = some a1 →
    0 ≤ a1.DataSize ∧ a1.DataSize ≤ size := by
  intro cs
  induction cs with
  | nil =>
    intro a a1 hinv h
    simp only [SCall.runAll, Option.some.injEq] at h
    rw [← h]; exact hinv
  | cons c cs ih =>
    intro a a1 hinv h
    simp only [SCall.runAll] at h
    split at h
    · rename_i a2 h2
      exact ih a2 a1 (SCall_run_bound size w a a2 c hinv h2) h
    · cases h

/-- For a capacity of at least one, every state reached from a fresh Bounded Array by
calls that return normally has `0 ≤ DataSize ≤ size`. -/
theorem bounded_size_invariant (size w : Nat) (cs : List SCall) (a : StaticArray)
    (hC : 1 ≤ size) (h : SCall.runAll size w cs (StaticArray.new size w) = some a) :
    0 ≤ a.DataSize ∧ a.DataSize ≤ size := by
  refine SCall_runAll_bound size w cs (StaticArray.new size w) a ?_ h
  show (0 : Int) ≤ 1 ∧ (1 : Int) ≤ size
  omega



/-! ## Claims on Resize, the Bounded Array and buffer bounds -/

/-- C11: for `Size < s ≤ Reserve`, `Resize(s)` on a Dynamic Array sets `Size` to `s` and
leaves `Reserve` and the whole block as they were; for `s ≤ Size` it faults. -/
theorem Resize_within_reserve (w : Nat) (junk : Nat → Nat) (a : Array) (s : Int) :
    (a.Size < s ∧ s ≤ a.Reserve →
        a.Resize w junk s = .ok { Data := a.Data, Size := s, Reserve := a.Reserve } ()) ∧
      (s ≤ a.Size → a.Resize w junk s = .fault a) := by
  constructor
  · intro h
    unfold Array.Resize
    rw [if_neg (by omega), if_pos h.2]
  · intro h
    unfold Array.Resize
    rw [if_pos (by omega)]

/-- Witness for C11: `Resize(3)` on an `Array<u8>` with `Size = 1`, `Reserve = 3`. -/
theorem Resize_within_reserve_witness :
    ((⟨[10, 20, 30], 1, 3⟩ : Array).Size < 3 ∧ (3 : Int) ≤ (⟨[10, 20, 30], 1, 3⟩ : Array).Reserve) ∧
      (⟨[10, 20, 30], 1, 3⟩ : Array).Resize 1 (fun _ => 0) 3 = .ok sample3 () :=
  ⟨by decide, (Resize_within_reserve 1 (fun _ => 0) ⟨[10, 20, 30], 1, 3⟩ 3).1 (by decide)⟩

/-- C13: `Resize(s)` on a Bounded Array of capacity `size` sets `DataSize` to `s` and changes
nothing else when `DataSize < s < size`, and faults when `s ≤ DataSize` or `s ≥ size`; so no
`Resize`, `Add` or `Insert` that returns normally leaves `DataSize = size`, and on a capacity
of `4`, `Resize(4)` faults. -/
theorem Bounded_Resize_bound (size w : Nat) (a : StaticArray) (s : Int) :
    (a.DataSize < s ∧ s < size →
        a.Resize size s = .ok { Data := a.Data, DataSize := s } ()) ∧
      (s ≤ a.DataSize ∨ (size : Int) ≤ s → a.Resize size s = .fault a) ∧
      (∀ a1 u, a.Resize size s = .ok a1 u → a1.DataSize ≠ size) ∧
      (∀ a1 r, a.Add size = .ok a1 r → a1.DataSize ≠ size) ∧
      (∀ item a1 r, a.AddItem size w item = .ok a1 r → a1.DataSize ≠ size) ∧
      (∀ i a1 r, a.Insert size w i = .ok a1 r → a1.DataSize ≠ size) ∧
      (∀ i item a1 r, a.InsertItem size w i item = .ok a1 r → a1.DataSize ≠ size) ∧
      (StaticArray.new 4 w).Resize 4 4 = .fault (StaticArray.new 4 w) := by
  refine ⟨?_, ?_, ?_, ?_, ?_, ?_, ?_, ?_⟩
  · intro h
    unfold StaticArray.Resize
    rw [if_neg (by simpa using h)]
  · intro h
    unfold StaticArray.Resize
    rw [if_pos (by omega)]
  · intro a1 u h
    obtain ⟨g1, _, _, g4⟩ := SResize_fields size a a1 s u h
    omega
  · intro a1 r h
    obtain ⟨g1, _, _, g4⟩ := SResize_fields size a a1 _ () (SAdd_fields size a a1 r h)
    omega
  · intro item a1 r h
    obtain ⟨a2, k1, k2⟩ := SAddItem_fields size w a a1 item r h
    obtain ⟨g1, _, _, g4⟩ := SResize_fields size a a2 _ () k1
    omega
  · intro i a1 r h
    obtain ⟨a2, k1, k2⟩ := SInsert_fields size w a a1 i r h
    obtain ⟨g1, _, _, g4⟩ := SResize_fields size a a2 _ () k1
    omega
  · intro i item a1 r h
    obtain ⟨a2, k1, k2⟩ := SInsertItem_fields size w a a1 i item r h
    obtain ⟨g1, _, _, g4⟩ := SResize_fields size a a2 _ () k1
    omega
  · unfold StaticArray.Resize
    rw [if_pos (by omega)]

/-- Witness for C13: `Resize(2)` on a fresh `StaticArray<u8, 4>`. -/
theorem Bounded_Resize_bound_witness :
    ((StaticArray.new 4 1).DataSize < 2 ∧ (2 : Int) < ((4 : Nat) : Int)) ∧
      (StaticArray.new 4 1).Resize 4 2 = .ok { Data := (StaticArray.new 4 1).Data, DataSize := 2 } () :=
  ⟨by decide, (Bounded_Resize_bound 4 1 (StaticArray.new 4 1) 2).1 (by decide)⟩

/-- C14 fails on the code for capacity `0`: a freshly constructed `StaticArray<u8, 0>`
already has `DataSize = 1`, above its capacity. -/
theorem Bounded_fresh_above_zero_capacity :
    SCall.runAll 0 1 [] (StaticArray.new 0 1) = some (StaticArray.new 0 1) ∧
      (StaticArray.new 0 1).DataSize = 1 ∧
      ¬ ((StaticArray.new 0 1).DataSize ≤ ((0 : Nat) : Int)) := by
  decide

/-- C15 fails on the code: on the `StaticArray<u8, 8>` holding `10, 20, 30` (reached from a
fresh array by `a[0] = 10`, `Add(20)`, `Add(30)`), `Insert(0, 99)` leaves `99, 10, 10, 10`
instead of `99, 10, 20, 30`. -/
theorem Bounded_Insert_smears :
    ((StaticArray.new 8 1).IndexSet 8 1 0 [10]).andThen
        (fun a => (a.AddItem 8 1 [20]).andThen (fun a => a.AddItem 8 1 [30])) = .ok bounded3 2 ∧
      bounded3.live 1 = [[10], [20], [30]] ∧
      (bounded3.InsertItem 8 1 0 [99]).state?.map (StaticArray.live 1)
        = some [[99], [10], [10], [10]] := by
  decide

/-- C16 fails on the code when `DataSize` is at its largest: on the `StaticArray<u8, 4>`
holding `10, 20, 30` (reached from a fresh array by `a[0] = 10`, `Add(20)`, `Add(30)`),
`Remove_Ordered(0)` copies `DataSize - (i - 1) = 4` elements starting at slot `1` and so
reads slot `4`, outside the block. -/
theorem Bounded_Remove_Ordered_overruns :
    ((StaticArray.new 4 1).IndexSet 4 1 0 [10]).andThen
        (fun a => (a.AddItem 4 1 [20]).andThen (fun a => a.AddItem 4 1 [30]))
        = .ok boundedFull 2 ∧
      boundedFull.live 1 = [[10], [20], [30]] ∧
      boundedFull.Remove_Ordered 1 0 = .undefined := by
  decide

/-- C17: on a Bounded Array whose block has `size` slots, `operator[](i)` faults exactly
when `i < 0` or `i ≥ size` and otherwise returns slot `i`, whatever `DataSize` is; on a
fresh array every slot in range reads as zero. -/
theorem Bounded_Index_checks_capacity (size w : Nat) (a : StaticArray) (i : Int)
    (hlen : a.Data.length = size * w) :
    (i < 0 ∨ (size : Int) ≤ i ↔ a.Index size w i = .fault a) ∧
      (0 ≤ i ∧ i < size → a.Index size w i = .ok a (slot w a.Data i.toNat)) ∧
      (0 ≤ i ∧ i < size →
        (StaticArray.new size w).Index size w i
          = .ok (StaticArray.new size w) (List.replicate w 0)) := by
  have hok : ∀ (b : StaticArray), b.Data.length = size * w → 0 ≤ i ∧ i < size →
      b.Index size w i = .ok b (slot w b.Data i.toNat) := by
    intro b hb h
    have hm : i = (i.toNat : Int) := by omega
    have h1 : (i.toNat + 1) * w ≤ size * w := Nat.mul_le_mul_right w (by omega)
    have h2 : (i.toNat + 1) * w = i.toNat * w + w := Nat.succ_mul _ _
    unfold StaticArray.Index
    rw [if_neg (by simpa using h), hm, elemPtr_natCast]
    simp only [Option.bind_eq_bind, Option.some_bind, readT_slot w b.Data i.toNat (by omega),
      Int.toNat_ofNat]
  refine ⟨⟨?_, ?_⟩, hok a hlen, ?_⟩
  · intro h
    unfold StaticArray.Index
    rw [if_pos (by omega)]
  · intro h
    by_contra hc
    rw [hok a hlen (by omega)] at h
    cases h
  · intro h
    have hnew : (StaticArray.new size w).Data.length = size * w := by
      simp [StaticArray.new, calloc]
    rw [hok _ hnew h]
    congr 1
    apply List.ext_getElem?
    intro k
    rw [slot_getElem?]
    have h1 : (i.toNat + 1) * w ≤ size * w := Nat.mul_le_mul_right w (by omega)
    have h2 : (i.toNat + 1) * w = i.toNat * w + w := Nat.succ_mul _ _
    by_cases hk : k < w
    · rw [if_pos hk]
      simp only [StaticArray.new, calloc]
      rw [List.getElem?_replicate, List.getElem?_replicate, if_pos (by omega), if_pos hk]
    · rw [if_neg hk, eq_comm, List.getElem?_eq_none]
      simp; omega

/-- Witness for C17: slot `3` of a fresh `StaticArray<u16, 4>`, above `DataSize = 1`. -/
theorem Bounded_Index_checks_capacity_witness :
    (StaticArray.new 4 2).Data.length = 4 * 2 ∧
      (StaticArray.new 4 2).Index 4 2 3 = .ok (StaticArray.new 4 2) (List.replicate 2 0) :=
  ⟨by decide, (Bounded_Index_checks_capacity 4 2 (StaticArray.new 4 2) 3 (by decide)).2.2
    (by decide)⟩

/-- C18 fails on the code: `Insert(0)` on a fresh `Array<u8>` (`Size = 0`, `Reserve = 1`)
sets `Size = 1` without growing and then copies `Size - i = 1` element from slot `0` to
slot `1`, outside the one-slot block. -/
theorem Insert_overruns :
    (Array.new 1).Size ≤ (Array.new 1).Reserve ∧
      (Array.new 1).Resize 1 (fun _ => 0) 1 = .ok ⟨[0], 1, 1⟩ () ∧
      (Array.new 1).Insert 1 (fun _ => 0) 0 = .undefined := by
  decide

/-- C19 fails on the code: on a fresh `StaticArray<u8, 4>` after `Resize(3)`,
`Remove_Ordered(0)` runs its byte copy over slots `1..4` and so leaves the four-slot
block. -/
theorem Bounded_Remove_Ordered_leaves_block :
    SCall.runAll 4 1 [.resize 3] (StaticArray.new 4 1) = some ⟨[0, 0, 0, 0], 3⟩ ∧
      (⟨[0, 0, 0, 0], 3⟩ : StaticArray).Remove_Ordered 1 0 = .undefined := by
  decide



/-! ## Add on both containers -/

/-- At `Size = INT32_MAX` the sum `Size + 1` wraps and `Add(item)` faults in `Resize`. -/
theorem AddItem_at_max (w : Nat) (junk : Nat → Nat) (a : Array) (item : List Nat)
    (hn : a.Size = 2147483647) : a.AddItem w junk item = .fault a := by
  unfold Array.AddItem Array.Add Array.Resize
  rw [hn]
  simp [toI32]

/-- The call `Resize(2147483647)` on a fresh `Array<u8>` returns normally. -/
theorem Resize_max_fields : ∃ a1, (Array.new 1).Resize 1 (fun _ => 0) 2147483647 = .ok a1 () ∧
    a1.Size = 2147483647 := by
  obtain ⟨a1, h1, _, h3, _, _⟩ := Resize_spec 1 (fun _ => 0) (Array.new 1) 0 2147483647
    (by decide) (by decide) (new_WF 1 (by decide)) rfl (by omega) (by omega)
  simp only [Nat.cast_ofNat] at h1 h3
  exact ⟨a1, h1, h3⟩

theorem run_addItem (w : Nat) (a : Array) (junk : Nat → Nat) (item : List Nat) :
    Call.run w a (Call.addItem junk item) = (a.AddItem w junk item).state? := rfl

theorem runAll_cons (w : Nat) (c : Call) (cs : List Call) (a a1 : Array)
    (h : c.run w a = some a1) : Call.runAll w (c :: cs) a = Call.runAll w cs a1 := by
  simp only [Call.runAll, h]

theorem newSize_two : toI32 ((pow15 (floorLog15 (1 + 1) + 1) : Nat) : Int) = 2 := by decide

theorem newSize_three : toI32 ((pow15 (floorLog15 (2 + 1) + 1) : Nat) : Int) = 3 := by decide

/-- Three `Add(item)` calls on a fresh Dynamic Array. -/
theorem three_Adds (w : Nat) (hw1 : 1 ≤ w) (hw2 : w < 4294967296) (j1 j2 j3 : Nat → Nat)
    (x1 x2 x3 : List Nat) (h1 : x1.length = w) (h2 : x2.length = w) (h3 : x3.length = w) :
    ∃ a3, Call.runAll w [.addItem j1 x1, .addItem j2 x2, .addItem j3 x3] (Array.new w)
        = some a3 ∧ a3.Size = 3 ∧ a3.live w = [x1, x2, x3] ∧ a3.Reserve = 3 := by
  have hR : (Array.new w).Reserve = 1 := rfl
  obtain ⟨a1, e1, f1, s1, l1, r1⟩ := AddItem_spec w j1 (Array.new w) 0 x1 hw1 hw2
    (new_WF w (by omega)) rfl (by omega) h1
  rw [hR, if_pos (by omega)] at r1
  rw [new_live] at l1
  obtain ⟨a2, e2, f2, s2, l2, r2⟩ := AddItem_spec w j2 a1 1 x2 hw1 hw2 f1
    (by rw [s1]; rfl) (by omega) h2
  rw [r1, if_neg (by omega), newSize_two] at r2
  obtain ⟨a3, e3, f3, s3, l3, r3⟩ := AddItem_spec w j3 a2 2 x3 hw1 hw2 f2
    (by rw [s2]; rfl) (by omega) h3
  rw [r2, if_neg (by omega), newSize_three] at r3
  refine ⟨a3, ?_, ?_, ?_, r3⟩
  · rw [runAll_cons w _ _ _ a1 (by rw [run_addItem, e1]; rfl),
      runAll_cons w _ _ _ a2 (by rw [run_addItem, e2]; rfl),
      runAll_cons w _ _ _ a3 (by rw [run_addItem, e3]; rfl)]
    rfl
  · rw [s3]; rfl
  · rw [l3, l2, l1]; rfl

/-- On a Bounded Array whose block has `size` slots, `Add(item)` below the bound stores
`item` in slot `DataSize` and raises `DataSize` by one. -/
theorem SAddItem_spec (size w : Nat) (a : StaticArray) (n : Nat) (item : List Nat)
    (hsize : size < 65536) (hlen : a.Data.length = size * w) (hn : a.DataSize = n)
    (hlt : n + 1 < size) (hitem : item.length = w) :
    ∃ a1, a.AddItem size w item = .ok a1 (n : Int) ∧ a1.DataSize = (n : Int) + 1 ∧
      a1.Data.length = size * w := by
  have hs : toI32 (a.DataSize + 1) = (n : Int) + 1 := by
    rw [hn, toI32_of_range] <;> omega
  have h1 : (n + 1) * w ≤ size * w := Nat.mul_le_mul_right w (by omega)
  have h2 : (n + 1) * w = n * w + w := Nat.succ_mul _ _
  obtain ⟨d, hd1, hd2, _⟩ := writeT_spec a.Data (n * w) item (by omega)
  refine ⟨{ Data := d, DataSize := (n : Int) + 1 }, ?_, rfl, by show d.length = _; omega⟩
  unfold StaticArray.AddItem StaticArray.Add StaticArray.Resize
  rw [hs, if_neg (by rw [hn]; simp; omega)]
  simp only [add_sub_cancel_right, elemPtr_natCast, Option.bind_eq_bind, Option.some_bind, hd1]

/-- On a Bounded Array with `DataSize = size - 1`, `Add()` and `Add(item)` fault. -/
theorem SAdd_at_bound (size w : Nat) (a : StaticArray) (item : List Nat)
    (hsize : size < 65536) (hn : a.DataSize + 1 = size) :
    a.AddItem size w item = .fault a ∧ a.Add size = .fault a := by
  have hs : toI32 (a.DataSize + 1) = (size : Int) := by
    rw [hn, toI32_of_range] <;> omega
  constructor
  · unfold StaticArray.AddItem StaticArray.Add StaticArray.Resize
    rw [hs, if_pos (by omega)]
  · unfold StaticArray.Add StaticArray.Resize
    rw [hs, if_pos (by omega)]

theorem addAll_spec (size w : Nat) (hsize : size < 65536) :
    ∀ (xs : List (List Nat)) (a : StaticArray) (n : Nat), a.Data.length = size * w →
      a.DataSize = n → n + xs.length < size → (∀ x ∈ xs, x.length = w) →
      ∃ a1, StaticArray.addAll size w xs a = .ok a1 () ∧
        a1.DataSize = ((n + xs.length : Nat) : Int) ∧ a1.Data.length = size * w := by
  intro xs
  induction xs with
  | nil =>
    intro a n hlen hn _ _
    exact ⟨a, rfl, by simpa using hn, hlen⟩
  | cons x xs ih =>
    intro a n hlen hn hlt hall
    simp only [List.length_cons] at hlt
    obtain ⟨a1, h1, h2, h3⟩ := SAddItem_spec size w a n x hsize hlen hn (by omega)
      (hall x (List.mem_cons_self _ _))
    obtain ⟨a2, g1, g2, g3⟩ := ih a1 (n + 1) h3 (by rw [h2]; push_cast; rfl) (by omega)
      (fun y hy => hall y (List.mem_cons_of_mem _ hy))
    refine ⟨a2, ?_, ?_, g3⟩
    · simp only [StaticArray.addAll, h1, g1]
    · rw [g2]; simp only [List.length_cons]; push_cast; omega



/-! ## Claims on Add -/

/-- C12 (as stated) fails at `Size = INT32_MAX`: after `Resize(2147483647)` on a fresh
`Array<u8>`, `Add(7)` computes `Size + 1`, which wraps to `-2^31`, and faults. -/
theorem Add_at_INT32_MAX_faults :
    (((Array.new 1).Resize 1 (fun _ => 0) 2147483647).andThen
      (fun a => a.AddItem 1 (fun _ => 0) [7])).isFault = true := by
  obtain ⟨a1, h1, h3⟩ := Resize_max_fields
  rw [h1]
  simp only [Outcome.andThen]
  rw [AddItem_at_max 1 _ a1 _ h3]
  rfl

/-- C12 (as amended): for an element width `1 ≤ w < 2^32` and a Dynamic Array with
`Size < 2147483647`, `Add(x)` returns normally, the live contents become the old ones
followed by `x`, `Size` grows by one and the returned reference is the new last slot; and
three `Add` calls on a fresh array give `Size = 3`, the three values in order, and
`Reserve = 3`. -/
theorem Add_appends (w : Nat) (junk : Nat → Nat) (a : Array) (item : List Nat)
    (hw1 : 1 ≤ w) (hw2 : w < 4294967296) (hwf : a.WF w) (hsz : a.Size < 2147483647)
    (hitem : item.length = w) :
    (∃ a1, a.AddItem w junk item = .ok a1 (a1.Size - 1) ∧ a1.live w = a.live w ++ [item] ∧
        a1.Size = a.Size + 1) ∧
      (∀ (j1 j2 j3 : Nat → Nat) (x1 x2 x3 : List Nat),
        x1.length = w → x2.length = w → x3.length = w →
        ∃ a3, Call.runAll w [.addItem j1 x1, .addItem j2 x2, .addItem j3 x3] (Array.new w)
            = some a3 ∧ a3.Size = 3 ∧ a3.live w = [x1, x2, x3] ∧ a3.Reserve = 3) := by
  constructor
  · have hn : a.Size = (a.Size.toNat : Int) := by have := hwf.1; omega
    obtain ⟨a1, h1, _, h3, h4, _⟩ := AddItem_spec w junk a a.Size.toNat item hw1 hw2 hwf hn
      (by omega) hitem
    refine ⟨a1, ?_, h4, by rw [h3, ← hn]⟩
    rw [h1, h3]
    congr 1
    omega
  · intro j1 j2 j3 x1 x2 x3 h1 h2 h3
    exact three_Adds w hw1 hw2 j1 j2 j3 x1 x2 x3 h1 h2 h3

/-- Witness for C12 (as amended): `Add(40)` on the `Array<u8>` holding `10, 20, 30`. -/
theorem Add_appends_witness :
    (1 ≤ 1 ∧ 1 < 4294967296 ∧ sample3.WF 1 ∧ sample3.Size < 2147483647 ∧
        [40].length = 1) ∧
      ∃ a1, sample3.AddItem 1 (fun _ => 0) [40] = .ok a1 (a1.Size - 1) ∧
        a1.live 1 = sample3.live 1 ++ [[40]] ∧ a1.Size = sample3.Size + 1 :=
  ⟨⟨by decide, by decide, by decide, by decide, by decide⟩,
    (Add_appends 1 (fun _ => 0) sample3 [40] (by decide) (by decide) (by decide) (by decide)
      (by decide)).1⟩

/-- C20: a fresh Bounded Array of capacity `2 ≤ size` (a `u16`) has `DataSize = 1`; any
`k ≤ size - 2` consecutive `Add(item)` calls on it return normally and leave
`DataSize = 1 + k`; and after `size - 2` of them `DataSize = size - 1` and the next `Add`
faults. -/
theorem Bounded_usable_capacity (size w : Nat) (h2 : 2 ≤ size) (hu16 : size < 65536) :
    (StaticArray.new size w).DataSize = 1 ∧
      (∀ xs : List (List Nat), xs.length ≤ size - 2 → (∀ x ∈ xs, x.length = w) →
        ∃ a, StaticArray.addAll size w xs (StaticArray.new size w) = .ok a () ∧
          a.DataSize = 1 + (xs.length : Int)) ∧
      (∀ (xs : List (List Nat)) (x : List Nat), xs.length = size - 2 →
        (∀ y ∈ xs, y.length = w) →
        ∃ a, StaticArray.addAll size w xs (StaticArray.new size w) = .ok a () ∧
          a.DataSize = (size : Int) - 1 ∧ a.AddItem size w x = .fault a ∧
          a.Add size = .fault a) := by
  have hnew : (StaticArray.new size w).Data.length = size * w := by
    simp [StaticArray.new, calloc]
  refine ⟨rfl, ?_, ?_⟩
  · intro xs hlen hall
    obtain ⟨a, g1, g2, _⟩ := addAll_spec size w hu16 xs (StaticArray.new size w) 1 hnew rfl
      (by omega) hall
    exact ⟨a, g1, by rw [g2]; push_cast; rfl⟩
  · intro xs x hlen hall
    obtain ⟨a, g1, g2, _⟩ := addAll_spec size w hu16 xs (StaticArray.new size w) 1 hnew rfl
      (by omega) hall
    have hd : a.DataSize = (size : Int) - 1 := by rw [g2]; omega
    obtain ⟨k1, k2⟩ := SAdd_at_bound size w a x hu16 (by omega)
    exact ⟨a, g1, hd, k1, k2⟩

/-- Witness for C20: capacity `4` takes two `Add` calls and rejects the third. -/
theorem Bounded_usable_capacity_witness :
    (2 ≤ 4 ∧ 4 < 65536) ∧
      ∃ a, StaticArray.addAll 4 1 [[5], [6]] (StaticArray.new 4 1) = .ok a () ∧
        a.DataSize = ((4 : Nat) : Int) - 1 ∧ a.AddItem 4 1 [7] = .fault a ∧
        a.Add 4 = .fault a :=
  ⟨⟨by decide, by decide⟩,
    (Bounded_usable_capacity 4 1 (by decide) (by decide)).2.2 [[5], [6]] [7] (by decide)
      (by decide)⟩

end Hajime
